import Mathlib

/-!
Verification development for the AI2D-RST diagram annotation core.

This file gives a shallow embedding, in Lean 4, of the graph-construction
and incremental-editing engine of the AI2D-RST annotator:

- `parse_ann`, `extract_types`, `create_graph` embed
  `utils/core/parse.py` (annotation parsing and initial graph building,
  including the per-relation edge-drawing rules and the arrow-to-arrowhead
  table);
- `group_nodes` and `create_relation` embed `utils/core/annotate.py`
  (grouping on the layout layer, rhetorical-relation creation on the RST
  layer, including the `r1`, `r2`, ... relation alias machinery);
- `process_command_done` embeds the `done` branch of `process_command` in
  `utils/core/interface.py`; `annotate_rst_done` embeds the inline `done`
  handler of `Diagram.annotate_rst` in `utils/core/diagram.py`;
- `layout_group_cmd` and `conn_step` embed the layout grouping branch and
  the connectivity-edit branch of `Diagram.annotate_layout` /
  `Diagram.annotate_connectivity` in `utils/core/diagram.py`;
- `update_diagram_complete` embeds the completion computation of the batch
  driver loop in `utils/annotate.py`.

Graphs are `networkx.Graph` objects in the source, i.e. undirected graphs
with at most one edge per unordered node pair and attribute dictionaries on
nodes and edges.  `NxGraph` models exactly the attributes the embedded code
reads and writes: the `kind` attribute of nodes and edges, and the
`nucleus` / `satellites` / `nuclei` / `rel_name` attributes of RST relation
nodes.  Python strings are Lean `String`s; the Python string methods used
by the source (`upper`, `lower`, `strip`, `split`, `join`) are re-implemented
below at the character level so that every definition evaluates inside the
kernel.
-/

/-- Python `str.upper()` for the ASCII identifiers used by AI2D. -/
def pyUpper (s : String) : String :=
  String.mk (s.data.map Char.toUpper)

/-- Python `str.lower()` for the ASCII identifiers used by AI2D. -/
def pyLower (s : String) : String :=
  String.mk (s.data.map Char.toLower)

/-- Python `str.strip()` (remove leading and trailing whitespace). -/
def pyTrim (s : String) : String :=
  String.mk (((s.data.dropWhile Char.isWhitespace).reverse.dropWhile
    Char.isWhitespace).reverse)

/-- Python `str.strip(',')` (remove leading and trailing commas only). -/
def pyStripCommas (s : String) : String :=
  String.mk (((s.data.dropWhile (fun c => c == ',')).reverse.dropWhile
    (fun c => c == ',')).reverse)

/-- Splits a character list at every character satisfying `p`, keeping empty
chunks, as Python `str.split(sep)` does. -/
def splitChars (p : Char → Bool) : List Char → List (List Char)
  | [] => [[]]
  | c :: cs =>
    match splitChars p cs with
    | [] => [[]]
    | h :: t => if p c then [] :: h :: t else (c :: h) :: t

/-- Python `str.split(sep)` for a one-character separator: keeps empty
fields (`'a,,b'.split(',') == ['a', '', 'b']`). -/
def pySplitOnChar (c : Char) (s : String) : List String :=
  (splitChars (fun d => d == c) s.data).map String.mk

/-- Python `str.split()` with no argument: split on whitespace runs and
drop empty fields (so `''.split() == []`). -/
def pySplitWs (s : String) : List String :=
  (splitChars Char.isWhitespace s.data).map String.mk |>.filter (fun t => !(t == ""))

/-- Python `sep.join(parts)`. -/
def pyJoinSep (sep : String) : List String → String
  | [] => ""
  | [s] => s
  | s :: rest => s ++ sep ++ pyJoinSep sep rest

/-- Attribute dictionary of a networkx node, restricted to the attributes
the embedded code reads or writes.  A plain diagram element carries only
`kind`; RST relation nodes additionally carry `nucleus` / `satellites`
(mononuclear) or `nuclei` (multinuclear) and `rel_name`.  A node created
implicitly by `add_edge` carries no attributes at all (all fields `none`). -/
structure NodeData where
  kind : Option String := none
  nucleus : Option (List String) := none
  satellites : Option (List String) := none
  nuclei : Option (List String) := none
  rel_name : Option String := none
deriving Repr, DecidableEq

/-- An edge of a networkx `Graph`: an unordered pair stored in insertion
orientation, with its optional `kind` attribute. -/
structure NxEdge where
  src : String
  dst : String
  kind : Option String := none
deriving Repr, DecidableEq

/-- A networkx `Graph`: insertion-ordered node and edge lists.  At most one
edge is stored per unordered pair (re-adding an existing edge only updates
its attributes), mirroring `networkx.Graph` semantics. -/
structure NxGraph where
  nodes : List (String × NodeData)
  edges : List NxEdge
deriving Repr, DecidableEq

/-- Membership test for a node id. -/
def NxGraph.hasNode (g : NxGraph) (i : String) : Bool :=
  g.nodes.any (fun p => p.1 == i)

/-- Python `G.add_node(i, **attrs)`: replaces the attribute record if the
node exists (every call site of the embedded code passes the complete
attribute set), appends the node otherwise. -/
def NxGraph.addNode (g : NxGraph) (i : String) (d : NodeData) : NxGraph :=
  if g.hasNode i then
    { g with nodes := g.nodes.map (fun p => if p.1 == i then (i, d) else p) }
  else
    { g with nodes := g.nodes ++ [(i, d)] }

/-- Implicit node creation performed by `G.add_edge` for a missing
endpoint: the node is appended with an empty attribute dictionary. -/
def NxGraph.ensureNode (g : NxGraph) (i : String) : NxGraph :=
  if g.hasNode i then g else { g with nodes := g.nodes ++ [(i, {})] }

/-- Tests whether the stored edge `e` joins `a` and `b` (in either
orientation, as edges of an undirected graph are unordered pairs). -/
def edgeMatches (e : NxEdge) (a b : String) : Bool :=
  (e.src == a && e.dst == b) || (e.src == b && e.dst == a)

/-- Tests whether the unordered pairs `{a, b}` and `{x, y}` coincide. -/
def pairMatches (a b x y : String) : Bool :=
  (a == x && b == y) || (a == y && b == x)

/-- Membership test for an (undirected) edge. -/
def NxGraph.hasEdge (g : NxGraph) (a b : String) : Bool :=
  g.edges.any (fun e => edgeMatches e a b)

/-- Python `G.add_edge(a, b, **attrs)` on an undirected graph: creates
missing endpoints, then either updates the `kind` attribute of the existing
edge (when a `kind` is supplied) or appends a new edge. -/
def NxGraph.addEdge (g : NxGraph) (a b : String) (k : Option String) : NxGraph :=
  let g1 := (g.ensureNode a).ensureNode b
  if g1.hasEdge a b then
    { g1 with edges := g1.edges.map (fun e =>
        if edgeMatches e a b then
          match k with
          | some s => { e with kind := some s }
          | none => e
        else e) }
  else
    { g1 with edges := g1.edges ++ [{ src := a, dst := b, kind := k }] }

/-- Python `G.add_edges_from(pairs, kind=k)`: a sequence of `add_edge`
calls sharing one attribute set. -/
def NxGraph.addEdgesFrom (g : NxGraph) (ps : List (String × String))
    (k : Option String) : NxGraph :=
  ps.foldl (fun h p => h.addEdge p.1 p.2 k) g

/-- Tests whether the edge `e` is incident to the node `n`. -/
def NxEdge.incident (e : NxEdge) (n : String) : Bool :=
  e.src == n || e.dst == n

/-- Python `list(nx.isolates(G))`: the nodes with no incident edge, in node
insertion order. -/
def NxGraph.isolates (g : NxGraph) : List String :=
  (g.nodes.map Prod.fst).filter (fun n => !(g.edges.any (fun e => e.incident n)))

/-- Python `G.remove_nodes_from(ns)`: drops the listed nodes and every edge
incident to one of them. -/
def NxGraph.removeNodesFrom (g : NxGraph) (ns : List String) : NxGraph :=
  { nodes := g.nodes.filter (fun p => !(ns.contains p.1)),
    edges := g.edges.filter (fun e => !(ns.contains e.src) && !(ns.contains e.dst)) }

/-- Tests whether the graph contains an edge joining `a` and `b` whose
`kind` attribute equals `k`. -/
def NxGraph.hasEdgeKind (g : NxGraph) (a b : String) (k : Option String) : Bool :=
  g.edges.any (fun e => edgeMatches e a b && e.kind == k)

/-- Python dictionary assignment `d[k] = v` on an association list:
overwrites the value at an existing key in place, appends otherwise. -/
def updateAssoc (l : List (String × String)) (k v : String) :
    List (String × String) :=
  if l.any (fun p => p.1 == k) then
    l.map (fun p => if p.1 == k then (k, v) else p)
  else
    l ++ [(k, v)]

/-- One record of the `relationships` bucket of an AI2D annotation.  The
`connector` field models JSON presence and nullity separately: `none` means
the key is absent (a `KeyError` case in the source), `some none` means the
key holds `null` (falsy in Python, so silently skipped), and
`some (some c)` means the key holds the string `c` (falsy iff empty). -/
structure RelRecord where
  category : String
  origin : String
  destination : String
  connector : Option (Option String) := none
deriving Repr, DecidableEq

/-- A parsed AI2D annotation dictionary: each recognized element bucket
maps to its ordered list of element identifiers when the bucket key is
present, `none` when the key is absent; `relationships` likewise. -/
structure AnnData where
  blobs : Option (List String) := none
  arrows : Option (List String) := none
  text : Option (List String) := none
  arrowHeads : Option (List String) := none
  containers : Option (List String) := none
  imageConsts : Option (List String) := none
  relationships : Option (List (String × RelRecord)) := none
deriving Repr, DecidableEq

/-- The Python runtime error the embedded parsing code can raise. -/
inductive PyErr where
  | unboundLocal
deriving Repr, DecidableEq

/-- Embeds `parse_annotation` of `utils/core/parse.py`.  The source builds
`diagram_elements` with a single list comprehension over the six target
buckets inside `try ... except KeyError: pass`; a missing bucket aborts the
comprehension before the name is bound, so the trailing
`return diagram_elements, relations` raises `UnboundLocalError`.  The same
happens for `relations` when the `relationships` key is absent. -/
def parse_ann (a : AnnData) :
    Except PyErr (List String × List (String × RelRecord)) :=
  match a.blobs, a.arrows, a.text, a.arrowHeads, a.containers, a.imageConsts with
  | some b, some ar, some tx, some ah, some co, some ic =>
    match a.relationships with
    | some rels => Except.ok (b ++ ar ++ tx ++ ah ++ co ++ ic, rels)
    | none => Except.error PyErr.unboundLocal
  | _, _, _, _, _, _ => Except.error PyErr.unboundLocal

/-- Looks an element bucket up by its name, as `annotation[t]` does. -/
def bucketOf (a : AnnData) (t : String) : Option (List String) :=
  if t == "arrowHeads" then a.arrowHeads
  else if t == "arrows" then a.arrows
  else if t == "blobs" then a.blobs
  else if t == "text" then a.text
  else if t == "containers" then a.containers
  else if t == "imageConsts" then a.imageConsts
  else none

/-- The target bucket order of `extract_types` in `utils/core/parse.py`. -/
def extractTargets : List String :=
  ["arrowHeads", "arrows", "blobs", "text", "containers", "imageConsts"]

/-- The inner loop of `extract_types` for one element `e`: scan the target
buckets in order, recording the bucket name for every bucket containing `e`
(a later match overwrites an earlier one, as in the source); a missing
bucket raises `KeyError`, which the source catches with `continue` on the
outer element loop, so the scan for `e` stops there, keeping whatever was
already recorded for `e`. -/
def scanTargets (a : AnnData) (acc : List (String × String)) (e : String) :
    List String → List (String × String)
  | [] => acc
  | t :: ts =>
    match bucketOf a t with
    | none => acc
    | some ids =>
      scanTargets a (if ids.contains e then updateAssoc acc e t else acc) e ts

/-- Embeds `extract_types` of `utils/core/parse.py`: maps each element id
to the name of a bucket containing it, with the missing-bucket and
overwrite behavior of `scanTargets`. -/
def extract_types (elements : List String) (a : AnnData) :
    List (String × String) :=
  elements.foldl (fun acc e => scanTargets a acc e extractTargets) []

/-- One iteration of the edge-drawing loop of `create_graph` in
`utils/core/parse.py`, processing a single relation record against the
current graph and arrow-to-arrowhead table `amap`:

1. an `arrowHeadTail` record first adds the edge origin-destination and
   records origin -> destination in `amap`;
2. then, if the record has a truthy `connector` value, two edges are added:
   origin-connector followed by arrowhead-destination when the connector is
   a key of the (just updated) table, origin-connector followed by
   connector-destination otherwise;
3. a record without a `connector` key raises `KeyError`, caught by adding
   the direct origin-destination edge;
4. a record whose `connector` key is present but falsy adds nothing in
   step 2 and raises no `KeyError`. -/
def relStep (g : NxGraph) (amap : List (String × String)) (r : RelRecord) :
    NxGraph × List (String × String) :=
  let g1 := if r.category == "arrowHeadTail" then
    g.addEdge r.origin r.destination none else g
  let amap1 := if r.category == "arrowHeadTail" then
    updateAssoc amap r.origin r.destination else amap
  match r.connector with
  | none => (g1.addEdge r.origin r.destination none, amap1)
  | some none => (g1, amap1)
  | some (some c) =>
    if c == "" then (g1, amap1)
    else
      match amap1.lookup c with
      | some ah =>
        ((g1.addEdge r.origin c none).addEdge ah r.destination none, amap1)
      | none =>
        ((g1.addEdge r.origin c none).addEdge c r.destination none, amap1)

/-- Embeds `create_graph` of `utils/core/parse.py`: parse the annotation,
extract element kinds, drop arrowhead-kind entries unless `arrowheads` is
true, add one node per remaining element tagged with its kind, and, when
`edges` is true, run the relation records through `relStep` in input
order. -/
def create_graph (a : AnnData) (edges arrowheads : Bool) :
    Except PyErr NxGraph := do
  let (elements, relations) ← parse_ann a
  let elementTypes := extract_types elements a
  let elementTypes := if arrowheads then elementTypes
    else elementTypes.filter (fun p => !(p.2 == "arrowHeads"))
  let g := elementTypes.foldl
    (fun h p => h.addNode p.1 { kind := some p.2 }) ⟨[], []⟩
  if edges then
    return (relations.foldl (fun s p => relStep s.1 s.2 p.2) (g, [])).1
  else
    return g

/-- Python `nx.get_node_attributes(graph, 'kind')`: the nodes that carry a
`kind` attribute, paired with it, in node insertion order.  This underlies
every variant of `get_node_dict` in `utils/core/parse.py`. -/
def kindPairs (g : NxGraph) : List (String × String) :=
  g.nodes.filterMap (fun p => match p.2.kind with
    | some k => some (p.1, k)
    | none => none)

/-- Embeds `get_node_dict(graph, kind='node')`: ids of nodes whose kind is
neither `group` nor `relation`. -/
def plainNodeIds (g : NxGraph) : List String :=
  (kindPairs g).filterMap (fun p =>
    if p.2 == "group" || p.2 == "relation" then none else some p.1)

/-- Embeds `get_node_dict(graph, kind='relation')`: ids of relation-kind
nodes. -/
def relationNodeIds (g : NxGraph) : List String :=
  (kindPairs g).filterMap (fun p => if p.2 == "relation" then some p.1 else none)

/-- Embeds `get_node_dict(graph, kind='group')`: ids of group-kind nodes. -/
def groupNodeIds (g : NxGraph) : List String :=
  (kindPairs g).filterMap (fun p => if p.2 == "group" then some p.1 else none)

/-- The relation alias table `{'r1': id1, 'r2': id2, ...}` built by
`create_relation` in `utils/core/annotate.py` by enumerating the current
relation nodes from 1 in node order. -/
def relationAliases (g : NxGraph) : List (String × String) :=
  (relationNodeIds g).enum.map (fun p => ("r" ++ toString (p.1 + 1), p.2))

/-- The group alias table `{'g1': id1, 'g2': id2, ...}` built by
`Diagram.annotate_layout` in `utils/core/diagram.py` by enumerating the
current group nodes from 1 in node order. -/
def groupAliases (g : NxGraph) : List (String × String) :=
  (groupNodeIds g).enum.map (fun p => ("g" ++ toString (p.1 + 1), p.2))

/-- The kind of each listed node, looked up as `node_dict[u.upper()]` does
in `group_nodes` (with `''` standing in for a lookup that would raise). -/
def inputKindList (g : NxGraph) (user_input : List String) : List String :=
  user_input.map (fun u => ((kindPairs g).lookup (pyUpper u)).getD "")

/-- The imageConst-branch edge list of `group_nodes`: for every
imageConst-kind node `k` of the graph (outer loop) and every listed node
`u` (inner loop), the pair `(u.upper(), k.upper())`. -/
def imageConstPairs (g : NxGraph) (user_input : List String) :
    List (String × String) :=
  (kindPairs g).foldl (fun acc p =>
    if p.2 == "imageConsts" then
      acc ++ user_input.map (fun u => (pyUpper u, pyUpper p.1))
    else acc) []

/-- Embeds `group_nodes` of `utils/core/annotate.py`.  The random id
produced by `create_id()` is passed in as `newNode`.  The result is `none`
when some listed node has no entry in the kind dictionary (the source would
raise `KeyError` while building `input_node_types`).  If the listed nodes
include an imageConst, no group node is created: an edge is added from
every listed node to every imageConst node of the graph.  Otherwise a fresh
group-kind node is added, with an edge from every listed node to it. -/
def group_nodes (g : NxGraph) (user_input : List String) (newNode : String) :
    Option NxGraph :=
  if user_input.any (fun u => ((kindPairs g).lookup (pyUpper u)).isNone) then
    none
  else if (inputKindList g user_input).contains "imageConsts" then
    some (g.addEdgesFrom (imageConstPairs g user_input) none)
  else
    let g1 := g.addNode newNode { kind := some "group" }
    some (g1.addEdgesFrom (user_input.map (fun u => (pyUpper u, newNode))) none)

/-- Lower-cased whitespace-separated tokens of one interactive input line,
as `create_relation` produces with `input().split()` and `lower()`. -/
def lowTokens (s : String) : List String :=
  (pySplitWs s).map pyLower

/-- The combined set of valid lower-cased identifiers used by
`create_relation`: lower-cased plain node ids plus relation aliases. -/
def validRelationIds (g : NxGraph) : List String :=
  (plainNodeIds g).map pyLower ++ (relationAliases g).map (fun p => p.1)

/-- The mononuclear branch of `create_relation` in
`utils/core/annotate.py`: reject unless exactly one nucleus token is given;
reject any token outside the valid-id set; otherwise add a relation node
named `nucleus.upper() + '-' + '+'.join(satellites).upper()` carrying the
raw lower-cased token lists, then add satellite edges (resolving satellite
tokens that are relation aliases through the alias table) and a nucleus
edge to the upper-cased nucleus token (never resolved through the alias
table). -/
def create_relation_mono (g : NxGraph) (rel_name : String)
    (nucleusInp satInp : String) : NxGraph :=
  let validIds := validRelationIds g
  let relIx := relationAliases g
  let nucleus := lowTokens nucleusInp
  if !(nucleus.length == 1) then g
  else if !(nucleus.all (fun n => validIds.contains n)) then g
  else
    let satellites := lowTokens satInp
    if !(satellites.all (fun s => validIds.contains s)) then g
    else
      let newRel := pyUpper (pyJoinSep "" nucleus) ++ "-" ++
        pyUpper (pyJoinSep "+" satellites)
      let g1 := g.addNode newRel
        { kind := some "relation", nucleus := some nucleus,
          satellites := some satellites, rel_name := some rel_name }
      let g2 := satellites.foldl (fun h s =>
        match relIx.lookup s with
        | some rid => h.addEdge rid newRel (some "satellite")
        | none => h.addEdge (pyUpper s) newRel (some "satellite")) g1
      nucleus.foldl (fun h n => h.addEdge newRel (pyUpper n) (some "nucleus")) g2

/-- The multinuclear branch of `create_relation` in
`utils/core/annotate.py`: reject unless at least two nuclei tokens are
given and all are valid; otherwise add a relation node named
`'+'.join(nuclei).upper()` carrying the raw lower-cased token list, then
add one nucleus edge per nucleus token, resolving tokens that are relation
aliases through the alias table. -/
def create_relation_multi (g : NxGraph) (rel_name : String)
    (nucleiInp : String) : NxGraph :=
  let validIds := validRelationIds g
  let relIx := relationAliases g
  let nuclei := lowTokens nucleiInp
  if nuclei.length ≤ 1 then g
  else if !(nuclei.all (fun n => validIds.contains n)) then g
  else
    let newRel := pyUpper (pyJoinSep "+" nuclei)
    let g1 := g.addNode newRel
      { kind := some "relation", nuclei := some nuclei,
        rel_name := some rel_name }
    nuclei.foldl (fun h n =>
      match relIx.lookup n with
      | some rid => h.addEdge newRel rid (some "nucleus")
      | none => h.addEdge newRel (pyUpper n) (some "nucleus")) g1

/-- Embeds `create_relation` of `utils/core/annotate.py`, dispatching on
the relation kind (`mono` or `multi`) taken from the `rst_relations`
vocabulary; the interactive nucleus / satellite / nuclei input lines are
passed as arguments. -/
def create_relation (g : NxGraph) (relKind rel_name : String)
    (nucleusInp satInp nucleiInp : String) : NxGraph :=
  if relKind == "mono" then create_relation_mono g rel_name nucleusInp satInp
  else if relKind == "multi" then create_relation_multi g rel_name nucleiInp
  else g

/-- The token list of a layout grouping command: the input line split on
commas with surrounding whitespace stripped, as in
`Diagram.annotate_layout` of `utils/core/diagram.py`. -/
def layoutTokens (input : String) : List String :=
  (pySplitOnChar ',' input).map pyTrim

/-- The valid-identifier set of the layout grouping branch: the lower-cased
ids of all graph nodes plus the group alias keys `g1`, `g2`, ....  The
user's tokens themselves are compared against this set as typed. -/
def layoutValidElems (g : NxGraph) : List String :=
  g.nodes.map (fun p => pyLower p.1) ++ (groupAliases g).map (fun p => p.1)

/-- The validation test of the layout grouping branch of
`Diagram.annotate_layout`: every token must be a member of
`layoutValidElems`. -/
def layout_validate (g : NxGraph) (tokens : List String) : Bool :=
  tokens.all (fun t => (layoutValidElems g).contains t)

/-- Embeds the grouping branch of `Diagram.annotate_layout` in
`utils/core/diagram.py` (the non-command input path): split the input on
commas, validate, report an error and leave the graph unchanged when
validation fails or when only one token was given, and otherwise replace
group aliases by their ids and call `group_nodes` (whose random fresh id is
passed in as `newNode`). -/
def layout_group_cmd (g : NxGraph) (input : String) (newNode : String) :
    Option NxGraph :=
  let tokens := layoutTokens input
  if !(layout_validate g tokens) then some g
  else if tokens.length == 1 then some g
  else
    let galiases := groupAliases g
    let tokens2 := tokens.map (fun u =>
      if (galiases.map (fun p => p.1)).contains u then (galiases.lookup u).getD u
      else u)
    group_nodes g tokens2 newNode

/-- The loop state of the connectivity-edit branch of
`Diagram.annotate_connectivity`: whether a valid connection has been found,
the most recently assigned source / target token lists and connection type,
and whether the loop was left through `break`. -/
structure ConnState where
  found : Bool := false
  source : List String := []
  target : List String := []
  ctype : String := ""
  broke : Bool := false
deriving Repr, DecidableEq

/-- The connection type dictionary of `Diagram.annotate_connectivity`, in
its insertion (iteration) order. -/
def connectionTypes : List (String × String) :=
  [("-", "undirectional"), (">", "directional"), ("<>", "bidirectional")]

/-- The alias loop of the connectivity-edit branch: for each connection
alias present among the tokens, assign source (tokens before the alias),
target (tokens after it, comma-stripped) and connection type, then either
`break` on invalid identifiers (keeping the just-assigned values and the
`found` flag from earlier iterations) or mark the connection found and
continue. -/
def connLoop (tokens validElems : List String) :
    List (String × String) → ConnState → ConnState
  | [], st => st
  | (al, ct) :: rest, st =>
    if st.broke then st
    else if tokens.contains al then
      let ix := tokens.indexOf al
      let source := (tokens.take ix).map pyStripCommas
      let target := (tokens.drop (ix + 1)).map pyStripCommas
      if !((source ++ target).all (fun t => validElems.contains t)) then
        { st with source := source, target := target, ctype := ct, broke := true }
      else
        connLoop tokens validElems rest
          { found := true, source := source, target := target, ctype := ct,
            broke := false }
    else connLoop tokens validElems rest st

/-- The edge list built by the connectivity-edit branch once a valid
connection is found: one ordered pair per (source, target) combination,
plus the reversed pairs when the connection type is bidirectional. -/
def connEdgeBunch (source target : List String) (ctype : String) :
    List (String × String) :=
  source.flatMap (fun s => target.map (fun t => (pyUpper s, pyUpper t))) ++
    (if ctype == "bidirectional" then
      target.flatMap (fun t => source.map (fun s => (pyUpper t, pyUpper s)))
    else [])

/-- The stripped token list of one connectivity input line: split on
single spaces, whitespace stripped per token. -/
def connTokens (input : String) : List String :=
  (pySplitOnChar ' ' input).map pyTrim

/-- The combined source-and-target token list assembled when the alias
`al` is found among `tokens` (comma-stripped, as in the source). -/
def connCombined (tokens : List String) (al : String) : List String :=
  (tokens.take (tokens.indexOf al)).map pyStripCommas ++
    (tokens.drop (tokens.indexOf al + 1)).map pyStripCommas

/-- The validity check of the connectivity-edit branch: every token names
a node of the connectivity graph when compared against the lower-cased
node ids. -/
def connValid (g : NxGraph) (ts : List String) : Bool :=
  ts.all (fun t => (g.nodes.map (fun p => pyLower p.1)).contains t)

/-- Embeds the connectivity-edit branch of `Diagram.annotate_connectivity`
in `utils/core/diagram.py`: split the input line on single spaces, strip
whitespace, run the alias loop against the lower-cased node ids of the
connectivity graph, and, when a connection was found, add the edge bunch
with the connection type as the shared `kind` attribute. -/
def conn_step (g : NxGraph) (input : String) : NxGraph :=
  let tokens := connTokens input
  let validElems := g.nodes.map (fun p => pyLower p.1)
  let st := connLoop tokens validElems connectionTypes {}
  if st.found then
    g.addEdgesFrom (connEdgeBunch st.source st.target st.ctype) (some st.ctype)
  else g

/-- The state touched by the `done` command: the current layer graph, its
frozen flag, and the three per-layer completion flags of the `Diagram`
object. -/
structure AnnState where
  graph : NxGraph
  frozen : Bool := false
  group_complete : Bool := false
  connectivity_complete : Bool := false
  rst_complete : Bool := false
deriving Repr, DecidableEq

/-- The grouping-edge removal step of the `done` branch of
`process_command` in `utils/core/interface.py`.  The source filters
`G.edges(data=True)` down to the pairs whose `kind` attribute is
`'grouping'` inside `try ... except KeyError: pass`; if any edge lacks a
`kind` attribute, the comprehension raises before `edge_bunch` is rebound,
so `remove_edges_from` receives the full edge list and removes every
edge. -/
def stripGroupingEdges (g : NxGraph) : NxGraph :=
  if g.edges.any (fun e => e.kind.isNone) then { g with edges := [] }
  else { g with edges := g.edges.filter (fun e => !(e.kind == some "grouping")) }

/-- Embeds the `done` branch of `process_command` in
`utils/core/interface.py`: set the completion flag matching the mode,
strip grouping-kind edges when the mode is `rst` or `connectivity`, remove
isolated nodes, and freeze the graph. -/
def process_command_done (mode : String) (st : AnnState) : AnnState :=
  let st1 := { st with
    group_complete := if mode == "layout" then true else st.group_complete,
    connectivity_complete :=
      if mode == "connectivity" then true else st.connectivity_complete,
    rst_complete := if mode == "rst" then true else st.rst_complete }
  let g1 := if mode == "rst" || mode == "connectivity" then
    stripGroupingEdges st1.graph else st1.graph
  let g2 := g1.removeNodesFrom g1.isolates
  { st1 with graph := g2, frozen := true }

/-- Embeds the inline `done` handler of `Diagram.annotate_rst` in
`utils/core/diagram.py` (lines 697-706): it sets `rst_complete`, destroys
the preview windows and returns; the RST graph is neither pruned of
isolates nor frozen, and no grouping edges are stripped. -/
def annotate_rst_done (st : AnnState) : AnnState :=
  { st with rst_complete := true }

/-- The completion flags of one `Diagram` object as seen by the batch
driver loop of `utils/annotate.py`. -/
structure DiagramFlags where
  group_complete : Bool
  connectivity_complete : Bool
  rst_complete : Bool
  complete : Bool
deriving Repr, DecidableEq

/-- Embeds the completion computation at the end of the batch driver loop
of `utils/annotate.py` (the `disable_rst` flag of the run is passed in but,
as in the source, the conditional reads only the three per-layer flags). -/
def update_diagram_complete (disable_rst : Bool) (d : DiagramFlags) :
    DiagramFlags :=
  let _ := disable_rst
  if d.group_complete && d.connectivity_complete && d.rst_complete then
    { d with complete := true }
  else
    { d with complete := false }

/-- Modelled from the spec: the aggregate completion condition claim C5
describes, namely the conjunction of the three per-layer flags with
`rst_complete` excused when RST annotation is disabled for the run.  It is
stated only for comparison against `update_diagram_complete`. -/
def spec_complete_flag (disable_rst : Bool) (d : DiagramFlags) : Bool :=
  d.group_complete && d.connectivity_complete && (disable_rst || d.rst_complete)

/-! Concrete fixtures used by the witness and counterexample theorems. -/

/-- Two blob nodes, as produced by the graph builder for a small diagram. -/
def gC1 : NxGraph :=
  ⟨[("B0", { kind := some "blobs" }), ("B1", { kind := some "blobs" })], []⟩

/-- An arrow-to-arrowhead table recording that arrow `A0` has head `AH0`. -/
def amapC1 : List (String × String) := [("A0", "AH0")]

/-- A relation record mediated by the connector arrow `A0`. -/
def recC1 : RelRecord :=
  { category := "interObject", origin := "B0", destination := "B1",
    connector := some (some "A0") }

/-- An RST-layer annotation state whose graph holds one isolated node. -/
def stC2 : AnnState := { graph := ⟨[("B0", { kind := some "blobs" })], []⟩ }

/-- A connectivity-layer annotation state with one grouping edge, one
connection edge and a group node that the grouping edge alone keeps
non-isolated. -/
def stC2w : AnnState :=
  { graph := ⟨[("B0", { kind := some "blobs" }), ("B1", { kind := some "blobs" }),
      ("G1", { kind := some "group" })],
      [{ src := "B0", dst := "G1", kind := some "grouping" },
       { src := "B0", dst := "B1", kind := some "undirectional" }]⟩ }

/-- A layout graph holding the element nodes `B1` and `T1`. -/
def gC3 : NxGraph :=
  ⟨[("B1", { kind := some "blobs" }), ("T1", { kind := some "text" })], []⟩

/-- An annotation with the `arrows` bucket (and only it) absent. -/
def annC4 : AnnData :=
  { blobs := some ["B0"], text := some ["T0"], arrowHeads := some [],
    containers := some [], imageConsts := some ["I0"], relationships := some [] }

/-- An RST graph holding a single blob node. -/
def gC6 : NxGraph := ⟨[("B0", { kind := some "blobs" })], []⟩

/-- An RST graph holding a blob node and a text node. -/
def gC6w : NxGraph :=
  ⟨[("B0", { kind := some "blobs" }), ("T0", { kind := some "text" })], []⟩

/-- An RST graph holding two element nodes and one existing relation node
`B0-T0`, whose alias is therefore `r1`. -/
def relDataC7 : NodeData :=
  { kind := some "relation", nucleus := some ["b0"], satellites := some ["t0"],
    rel_name := some "elaboration" }

def gC7 : NxGraph :=
  ⟨[("B0", { kind := some "blobs" }), ("T0", { kind := some "text" }),
    ("B0-T0", relDataC7)], []⟩

/-- An annotation with every bucket present, one arrow with an arrowhead,
and two relation records: the arrowHeadTail record of the arrow and a
relation between the blobs mediated by the arrow as connector. -/
def annC8 : AnnData :=
  { blobs := some ["B0", "B1"], arrows := some ["A0"], text := some [],
    arrowHeads := some ["AH0"], containers := some [],
    imageConsts := some ["I0"],
    relationships := some
      [("R0", { category := "arrowHeadTail", origin := "A0",
                destination := "AH0" }),
       ("R1", { category := "interObject", origin := "B0", destination := "B1",
                connector := some (some "A0") })] }

/-- The graph `create_graph annC8 true false` evaluates to: the arrowhead
id `AH0` appears only as an attribute-free node created by `add_edge`. -/
def gC8res : NxGraph :=
  ⟨[("B0", { kind := some "blobs" }), ("B1", { kind := some "blobs" }),
    ("A0", { kind := some "arrows" }), ("I0", { kind := some "imageConsts" }),
    ("AH0", {})],
   [{ src := "A0", dst := "AH0", kind := none },
    { src := "B0", dst := "A0", kind := none },
    { src := "AH0", dst := "B1", kind := none }]⟩

/-- A connectivity graph holding the nodes `T1`, `B1` and `B2`. -/
def gC9 : NxGraph :=
  ⟨[("T1", { kind := some "text" }), ("B1", { kind := some "blobs" }),
    ("B2", { kind := some "blobs" })], []⟩

/-- A layout graph holding two blobs and the image constant `I0`. -/
def gC10 : NxGraph :=
  ⟨[("B0", { kind := some "blobs" }), ("B1", { kind := some "blobs" }),
    ("I0", { kind := some "imageConsts" })], []⟩

/-- The graph `group_nodes gC10 ["b0", "i0"] "ZZZZ"` evaluates to: no group
node is created, and an edge runs from every listed node to every image
constant (including the image constant to itself). -/
def gC10res : NxGraph :=
  ⟨[("B0", { kind := some "blobs" }), ("B1", { kind := some "blobs" }),
    ("I0", { kind := some "imageConsts" })],
   [{ src := "B0", dst := "I0", kind := none },
    { src := "I0", dst := "I0", kind := none }]⟩

/-! Basic lemmas about the graph operations. -/

theorem ensureNode_edges (g : NxGraph) (i : String) :
    (g.ensureNode i).edges = g.edges := by
  unfold NxGraph.ensureNode
  split <;> rfl

theorem hasEdge_ensureNode (g : NxGraph) (i x y : String) :
    (g.ensureNode i).hasEdge x y = g.hasEdge x y := by
  unfold NxGraph.hasEdge
  rw [ensureNode_edges]

theorem edgeMatches_comm (e : NxEdge) (a b : String) :
    edgeMatches e a b = edgeMatches e b a := by
  unfold edgeMatches
  exact Bool.or_comm _ _

theorem edgeMatches_mk (a b : String) (k : Option String) (x y : String) :
    edgeMatches { src := a, dst := b, kind := k } x y = pairMatches a b x y := rfl

theorem pairMatches_cases {a b x y : String} (h : pairMatches a b x y = true) :
    (a = x ∧ b = y) ∨ (a = y ∧ b = x) := by
  unfold pairMatches at h
  simpa using h

theorem hasEdge_of_pairMatches {a b x y : String} (g : NxGraph)
    (h : pairMatches a b x y = true) : g.hasEdge x y = g.hasEdge a b := by
  rcases pairMatches_cases h with ⟨hx, hy⟩ | ⟨hx, hy⟩
  · rw [hx, hy]
  · rw [hx, hy]
    unfold NxGraph.hasEdge
    have he : (fun e => edgeMatches e y x) = (fun e => edgeMatches e x y) :=
      funext (fun e => edgeMatches_comm e y x)
    rw [he]

theorem addEdge_edges (g : NxGraph) (a b : String) (k : Option String) :
    (g.addEdge a b k).edges =
      if g.hasEdge a b then
        g.edges.map (fun e =>
          if edgeMatches e a b then
            match k with
            | some s => { e with kind := some s }
            | none => e
          else e)
      else g.edges ++ [{ src := a, dst := b, kind := k }] := by
  unfold NxGraph.addEdge
  simp only [hasEdge_ensureNode, ensureNode_edges]
  split <;> rfl

theorem addEdge_nodes (g : NxGraph) (a b : String) (k : Option String) :
    (g.addEdge a b k).nodes = ((g.ensureNode a).ensureNode b).nodes := by
  by_cases h : ((g.ensureNode a).ensureNode b).hasEdge a b = true
  · simp [NxGraph.addEdge, h]
  · simp [NxGraph.addEdge, h]

theorem hasEdge_addEdge (g : NxGraph) (a b : String) (k : Option String)
    (x y : String) :
    (g.addEdge a b k).hasEdge x y = (g.hasEdge x y || pairMatches a b x y) := by
  unfold NxGraph.hasEdge
  rw [addEdge_edges]
  by_cases hab : g.hasEdge a b = true
  · rw [if_pos hab]
    rw [List.any_map]
    have he : ((fun e => edgeMatches e x y) ∘ (fun e =>
        if edgeMatches e a b then
          match k with
          | some s => { e with kind := some s }
          | none => e
        else e)) = (fun e => edgeMatches e x y) := by
      funext e
      simp only [Function.comp_apply]
      cases k with
      | none => rw [ite_self]
      | some s =>
        by_cases hm : edgeMatches e a b = true
        · rw [if_pos hm]
          simp [edgeMatches]
        · rw [if_neg hm]
    rw [he]
    by_cases hp : pairMatches a b x y = true
    · have h1 : g.hasEdge x y = true := (hasEdge_of_pairMatches g hp).trans hab
      unfold NxGraph.hasEdge at h1
      rw [h1, hp]
      rfl
    · simp only [Bool.not_eq_true] at hp
      rw [hp, Bool.or_false]
  · rw [if_neg hab]
    rw [List.any_append]
    simp only [List.any_cons, List.any_nil, Bool.or_false]
    rw [edgeMatches_mk]

theorem hasEdge_addEdgesFrom (g : NxGraph) (ps : List (String × String))
    (k : Option String) (x y : String) :
    (g.addEdgesFrom ps k).hasEdge x y =
      (g.hasEdge x y || ps.any (fun p => pairMatches p.1 p.2 x y)) := by
  induction ps generalizing g with
  | nil => simp [NxGraph.addEdgesFrom]
  | cons p ps ih =>
    unfold NxGraph.addEdgesFrom at ih ⊢
    simp only [List.foldl_cons, List.any_cons]
    rw [ih, hasEdge_addEdge, Bool.or_assoc]

theorem ensureNode_nodes (g : NxGraph) (i : String) :
    (g.ensureNode i).nodes =
      if g.hasNode i then g.nodes else g.nodes ++ [(i, ({} : NodeData))] := by
  unfold NxGraph.ensureNode
  split <;> rfl

theorem mem_nodes_ensureNode {g : NxGraph} {i : String} {p : String × NodeData}
    (h : p ∈ (g.ensureNode i).nodes) : p ∈ g.nodes ∨ p.2 = ({} : NodeData) := by
  rw [ensureNode_nodes] at h
  split at h
  · exact Or.inl h
  · rcases List.mem_append.mp h with h1 | h1
    · exact Or.inl h1
    · right
      rw [List.mem_singleton.mp h1]

theorem mem_nodes_addEdge {g : NxGraph} {a b : String} {k : Option String}
    {p : String × NodeData} (h : p ∈ (g.addEdge a b k).nodes) :
    p ∈ g.nodes ∨ p.2 = ({} : NodeData) := by
  rw [addEdge_nodes] at h
  rcases mem_nodes_ensureNode h with h1 | h1
  · exact mem_nodes_ensureNode h1
  · exact Or.inr h1

theorem mem_nodes_addEdgesFrom {g : NxGraph} {ps : List (String × String)}
    {k : Option String} {p : String × NodeData}
    (h : p ∈ (g.addEdgesFrom ps k).nodes) : p ∈ g.nodes ∨ p.2 = ({} : NodeData) := by
  induction ps generalizing g with
  | nil => exact Or.inl h
  | cons q ps ih =>
    unfold NxGraph.addEdgesFrom at h ih
    rcases ih (g := g.addEdge q.1 q.2 k) h with h1 | h1
    · exact mem_nodes_addEdge h1
    · exact Or.inr h1

theorem kindPairs_ensureNode (g : NxGraph) (i : String) :
    kindPairs (g.ensureNode i) = kindPairs g := by
  unfold kindPairs
  rw [ensureNode_nodes]
  split
  · rfl
  · rw [List.filterMap_append]
    simp

theorem kindPairs_addEdge (g : NxGraph) (a b : String) (k : Option String) :
    kindPairs (g.addEdge a b k) = kindPairs g := by
  calc kindPairs (g.addEdge a b k)
      = kindPairs ((g.ensureNode a).ensureNode b) := by
        unfold kindPairs
        rw [addEdge_nodes]
    _ = kindPairs (g.ensureNode a) := kindPairs_ensureNode _ _
    _ = kindPairs g := kindPairs_ensureNode _ _

theorem kindPairs_addEdgesFrom (g : NxGraph) (ps : List (String × String))
    (k : Option String) : kindPairs (g.addEdgesFrom ps k) = kindPairs g := by
  induction ps generalizing g with
  | nil => rfl
  | cons p ps ih =>
    unfold NxGraph.addEdgesFrom at ih ⊢
    rw [List.foldl_cons, ih, kindPairs_addEdge]

theorem lookup_append_of_isSome {α β : Type} [BEq α] {l : List (α × β)}
    (l' : List (α × β)) {a : α} (h : (List.lookup a l).isSome = true) :
    List.lookup a (l ++ l') = List.lookup a l := by
  induction l with
  | nil => simp [List.lookup] at h
  | cons p t ih =>
    cases p with
    | mk k v =>
      simp only [List.cons_append, List.lookup]
      split
      · rfl
      · apply ih
        simp only [List.lookup] at h
        split at h
        · simp_all
        · exact h

theorem lookup_nodes_ensureNode {g : NxGraph} {i : String} (j : String)
    (h : (List.lookup i g.nodes).isSome = true) :
    List.lookup i (g.ensureNode j).nodes = List.lookup i g.nodes := by
  rw [ensureNode_nodes]
  split
  · rfl
  · exact lookup_append_of_isSome _ h

theorem lookup_nodes_addEdge {g : NxGraph} {i : String} (a b : String)
    (k : Option String) (h : (List.lookup i g.nodes).isSome = true) :
    List.lookup i (g.addEdge a b k).nodes = List.lookup i g.nodes := by
  rw [addEdge_nodes]
  have h1 := lookup_nodes_ensureNode (g := g) a h
  have h2 : (List.lookup i (g.ensureNode a).nodes).isSome = true := by
    rw [h1]; exact h
  rw [lookup_nodes_ensureNode (g := g.ensureNode a) b h2, h1]

theorem lookup_nodes_addEdgesFrom {g : NxGraph} {i : String}
    (ps : List (String × String)) (k : Option String)
    (h : (List.lookup i g.nodes).isSome = true) :
    List.lookup i (g.addEdgesFrom ps k).nodes = List.lookup i g.nodes := by
  induction ps generalizing g with
  | nil => rfl
  | cons p ps ih =>
    unfold NxGraph.addEdgesFrom at ih ⊢
    rw [List.foldl_cons]
    have h1 := lookup_nodes_addEdge (g := g) p.1 p.2 k h
    have h2 : (List.lookup i (g.addEdge p.1 p.2 k).nodes).isSome = true := by
      rw [h1]; exact h
    rw [ih h2, h1]

theorem lookup_map_overwrite {α β : Type} [BEq α] [LawfulBEq α]
    {l : List (α × β)} {i : α} {d : β} (h : l.any (fun p => p.1 == i) = true) :
    List.lookup i (l.map (fun p => if p.1 == i then (i, d) else p)) = some d := by
  induction l with
  | nil => simp at h
  | cons p t ih =>
    cases p with
    | mk k v =>
      simp only [List.map_cons]
      by_cases hp : k = i
      · subst hp
        rw [if_pos (by simp : (((k, v).1 == k) = true))]
        simp [List.lookup]
      · have hb : ((k, v).1 == i) = false := beq_eq_false_iff_ne.mpr hp
        rw [if_neg (by simp [hb])]
        simp only [List.lookup]
        have hb2 : (i == k) = false := beq_eq_false_iff_ne.mpr (fun hh => hp hh.symm)
        simp only [hb2]
        apply ih
        simp only [List.any_cons, Bool.or_eq_true] at h
        rcases h with h | h
        · exact absurd h (by simp [hb])
        · exact h

theorem lookup_append_single_self {α β : Type} [BEq α] [LawfulBEq α]
    {l : List (α × β)} {i : α} {d : β} (h : l.any (fun p => p.1 == i) = false) :
    List.lookup i (l ++ [(i, d)]) = some d := by
  induction l with
  | nil => simp [List.lookup]
  | cons p t ih =>
    cases p with
    | mk k v =>
      simp only [List.any_cons, Bool.or_eq_false_iff] at h
      simp only [List.cons_append, List.lookup]
      have hk : ¬ k = i := by
        intro hh
        rw [hh] at h
        simp at h
      have hb2 : (i == k) = false := beq_eq_false_iff_ne.mpr (fun hh => hk hh.symm)
      simp only [hb2]
      exact ih h.2

theorem lookup_addNode_self (g : NxGraph) (i : String) (d : NodeData) :
    List.lookup i (g.addNode i d).nodes = some d := by
  unfold NxGraph.addNode
  split
  · next h =>
    exact lookup_map_overwrite h
  · next h =>
    unfold NxGraph.hasNode at h
    exact lookup_append_single_self (Bool.eq_false_iff.mpr h)

theorem edgeMatches_of_pairMatches {a b x y : String}
    (h : pairMatches a b x y = true) (e : NxEdge) :
    edgeMatches e x y = edgeMatches e a b := by
  rcases pairMatches_cases h with ⟨hx, hy⟩ | ⟨hx, hy⟩
  · rw [hx, hy]
  · rw [hx, hy]
    exact edgeMatches_comm e x y

theorem edgeMatches_both {e : NxEdge} {a b x y : String}
    (h1 : edgeMatches e a b = true) (h2 : edgeMatches e x y = true) :
    pairMatches a b x y = true := by
  unfold edgeMatches at h1 h2
  unfold pairMatches
  simp only [Bool.or_eq_true, Bool.and_eq_true, beq_iff_eq] at h1 h2 ⊢
  rcases h1 with ⟨ha, hb⟩ | ⟨ha, hb⟩ <;> rcases h2 with ⟨hx, hy⟩ | ⟨hx, hy⟩ <;>
    simp_all

theorem edgeMatches_eq_pairMatches (e : NxEdge) (a b : String) :
    edgeMatches e a b = pairMatches a b e.src e.dst := by
  unfold edgeMatches pairMatches
  apply Bool.eq_iff_iff.mpr
  simp only [Bool.or_eq_true, Bool.and_eq_true, beq_iff_eq]
  constructor
  · rintro (⟨h1, h2⟩ | ⟨h1, h2⟩)
    · exact Or.inl ⟨h1.symm, h2.symm⟩
    · exact Or.inr ⟨h2.symm, h1.symm⟩
  · rintro (⟨h1, h2⟩ | ⟨h1, h2⟩)
    · exact Or.inl ⟨h1.symm, h2.symm⟩
    · exact Or.inr ⟨h2.symm, h1.symm⟩

theorem hasEdgeKind_addEdge_same (g : NxGraph) (a b kn x y : String) :
    (g.addEdge a b (some kn)).hasEdgeKind x y (some kn) =
      (g.hasEdgeKind x y (some kn) || pairMatches a b x y) := by
  unfold NxGraph.hasEdgeKind
  rw [addEdge_edges]
  by_cases hab : g.hasEdge a b = true
  · rw [if_pos hab]
    by_cases hp : pairMatches a b x y = true
    · rw [hp, Bool.or_true]
      unfold NxGraph.hasEdge at hab
      obtain ⟨e, he, hm⟩ := List.any_eq_true.mp hab
      apply List.any_eq_true.mpr
      refine ⟨_, List.mem_map_of_mem _ he, ?_⟩
      rw [if_pos hm]
      have h1 : edgeMatches { e with kind := some kn } x y = edgeMatches e x y := rfl
      rw [h1, edgeMatches_of_pairMatches hp e, hm]
      simp
    · rw [List.any_map]
      have he : ((fun e => edgeMatches e x y && e.kind == some kn) ∘ (fun e =>
          if edgeMatches e a b then { e with kind := some kn } else e)) =
          (fun e => edgeMatches e x y && e.kind == some kn) := by
        funext e
        simp only [Function.comp_apply]
        by_cases hm : edgeMatches e a b = true
        · rw [if_pos hm]
          have hxy : edgeMatches e x y = false := by
            cases hxy2 : edgeMatches e x y
            · rfl
            · exact absurd (edgeMatches_both hm hxy2) hp
          have h1 : edgeMatches { e with kind := some kn } x y = edgeMatches e x y := rfl
          rw [h1, hxy]
          simp
        · rw [if_neg hm]
      rw [he]
      simp only [Bool.not_eq_true] at hp
      rw [hp, Bool.or_false]
  · rw [if_neg hab]
    rw [List.any_append]
    simp only [List.any_cons, List.any_nil, Bool.or_false]
    rw [show edgeMatches { src := a, dst := b, kind := some kn } x y =
      pairMatches a b x y from rfl]
    simp

theorem hasEdgeKind_addEdgesFrom_same (g : NxGraph) (ps : List (String × String))
    (kn x y : String) :
    (g.addEdgesFrom ps (some kn)).hasEdgeKind x y (some kn) =
      (g.hasEdgeKind x y (some kn) || ps.any (fun p => pairMatches p.1 p.2 x y)) := by
  induction ps generalizing g with
  | nil => simp [NxGraph.addEdgesFrom]
  | cons p ps ih =>
    unfold NxGraph.addEdgesFrom at ih ⊢
    simp only [List.foldl_cons, List.any_cons]
    rw [ih, hasEdgeKind_addEdge_same, Bool.or_assoc]

theorem mem_edges_addEdge_some {g : NxGraph} {a b kn : String} {e : NxEdge}
    (h : e ∈ (g.addEdge a b (some kn)).edges) :
    e ∈ g.edges ∨ (e.kind = some kn ∧ pairMatches a b e.src e.dst = true) := by
  rw [addEdge_edges] at h
  split at h
  · obtain ⟨e1, he1, hfe⟩ := List.mem_map.mp h
    by_cases hm : edgeMatches e1 a b = true
    · rw [if_pos hm] at hfe
      right
      refine ⟨by rw [← hfe], ?_⟩
      rw [← hfe]
      rw [edgeMatches_eq_pairMatches] at hm
      exact hm
    · rw [if_neg hm] at hfe
      left
      rw [← hfe]
      exact he1
  · rcases List.mem_append.mp h with h1 | h1
    · exact Or.inl h1
    · right
      rw [List.mem_singleton.mp h1]
      refine ⟨rfl, ?_⟩
      unfold pairMatches
      simp

theorem mem_edges_addEdgesFrom_some {g : NxGraph} {ps : List (String × String)}
    {kn : String} {e : NxEdge} (h : e ∈ (g.addEdgesFrom ps (some kn)).edges) :
    e ∈ g.edges ∨
      (e.kind = some kn ∧ ps.any (fun p => pairMatches p.1 p.2 e.src e.dst) = true) := by
  induction ps generalizing g with
  | nil => exact Or.inl h
  | cons p ps ih =>
    unfold NxGraph.addEdgesFrom at h ih
    rcases ih (g := g.addEdge p.1 p.2 (some kn)) h with h1 | h1
    · rcases mem_edges_addEdge_some h1 with h2 | h2
      · exact Or.inl h2
      · refine Or.inr ⟨h2.1, ?_⟩
        simp only [List.any_cons, Bool.or_eq_true]
        exact Or.inl h2.2
    · refine Or.inr ⟨h1.1, ?_⟩
      simp only [List.any_cons, Bool.or_eq_true]
      exact Or.inr h1.2

theorem edges_removeIsolates (g : NxGraph) :
    (g.removeNodesFrom g.isolates).edges = g.edges := by
  unfold NxGraph.removeNodesFrom
  simp only
  apply List.filter_eq_self.mpr
  intro e he
  have hsrc : g.isolates.contains e.src = false := by
    apply Bool.eq_false_iff.mpr
    intro hc
    have hmem := List.elem_iff.mp hc
    unfold NxGraph.isolates at hmem
    have hpred := (List.mem_filter.mp hmem).2
    simp only [Bool.not_eq_true'] at hpred
    have : g.edges.any (fun e1 => e1.incident e.src) = true :=
      List.any_eq_true.mpr ⟨e, he, by simp [NxEdge.incident]⟩
    rw [this] at hpred
    cases hpred
  have hdst : g.isolates.contains e.dst = false := by
    apply Bool.eq_false_iff.mpr
    intro hc
    have hmem := List.elem_iff.mp hc
    unfold NxGraph.isolates at hmem
    have hpred := (List.mem_filter.mp hmem).2
    simp only [Bool.not_eq_true'] at hpred
    have : g.edges.any (fun e1 => e1.incident e.dst) = true :=
      List.any_eq_true.mpr ⟨e, he, by simp [NxEdge.incident]⟩
    rw [this] at hpred
    cases hpred
  rw [hsrc, hdst]
  rfl

theorem isolates_removeIsolates (g : NxGraph) :
    (g.removeNodesFrom g.isolates).isolates = [] := by
  have hedges := edges_removeIsolates g
  rw [show (g.removeNodesFrom g.isolates).isolates =
    ((g.removeNodesFrom g.isolates).nodes.map Prod.fst).filter
      (fun n => !((g.removeNodesFrom g.isolates).edges.any
        (fun e => e.incident n))) from rfl]
  rw [hedges]
  apply List.filter_eq_nil_iff.mpr
  intro n hn
  obtain ⟨p, hp, hpn⟩ := List.mem_map.mp hn
  have hpmem : p ∈ g.nodes := by
    unfold NxGraph.removeNodesFrom at hp
    exact (List.mem_filter.mp hp).1
  have hnotiso : g.isolates.contains p.1 = false := by
    unfold NxGraph.removeNodesFrom at hp
    have h2 := (List.mem_filter.mp hp).2
    simp only [Bool.not_eq_true'] at h2
    exact h2
  have hactive : g.edges.any (fun e => e.incident p.1) = true := by
    by_contra hfalse
    have hiso : p.1 ∈ g.isolates := by
      unfold NxGraph.isolates
      apply List.mem_filter.mpr
      refine ⟨List.mem_map_of_mem _ hpmem, ?_⟩
      simp only [Bool.not_eq_true']
      exact Bool.eq_false_iff.mpr hfalse
    have hcont : g.isolates.contains p.1 = true := List.elem_iff.mpr hiso
    rw [hcont] at hnotiso
    simp at hnotiso
  rw [← hpn]
  simp [hactive]

theorem lookup_updateAssoc_self (l : List (String × String)) (k v : String) :
    List.lookup k (updateAssoc l k v) = some v := by
  unfold updateAssoc
  split
  · next h =>
    exact lookup_map_overwrite h
  · next h =>
    exact lookup_append_single_self (Bool.eq_false_iff.mpr h)

theorem hasEdge_addEdge_self (g : NxGraph) (a b : String) (k : Option String) :
    (g.addEdge a b k).hasEdge a b = true := by
  rw [hasEdge_addEdge]
  unfold pairMatches
  simp

theorem pairMatches_comm (a b x y : String) :
    pairMatches a b x y = pairMatches b a x y := by
  unfold pairMatches
  apply Bool.eq_iff_iff.mpr
  simp only [Bool.or_eq_true, Bool.and_eq_true, beq_iff_eq]
  constructor
  · rintro (⟨h1, h2⟩ | ⟨h1, h2⟩)
    · exact Or.inr ⟨h2, h1⟩
    · exact Or.inl ⟨h2, h1⟩
  · rintro (⟨h1, h2⟩ | ⟨h1, h2⟩)
    · exact Or.inr ⟨h2, h1⟩
    · exact Or.inl ⟨h2, h1⟩

theorem mem_nodes_addNode {g : NxGraph} {i : String} {d : NodeData}
    {p : String × NodeData} (h : p ∈ (g.addNode i d).nodes) :
    p ∈ g.nodes ∨ p = (i, d) := by
  unfold NxGraph.addNode at h
  split at h
  · obtain ⟨p1, hp1, hfp⟩ := List.mem_map.mp h
    by_cases hm : (p1.1 == i) = true
    · rw [if_pos hm] at hfp
      exact Or.inr hfp.symm
    · rw [if_neg hm] at hfp
      exact Or.inl (hfp ▸ hp1)
  · rcases List.mem_append.mp h with h1 | h1
    · exact Or.inl h1
    · exact Or.inr (List.mem_singleton.mp h1)

theorem mem_nodes_foldl_addNode {l : List (String × String)} {g0 : NxGraph}
    {p : String × NodeData}
    (h : p ∈ (l.foldl (fun h q => h.addNode q.1 { kind := some q.2 }) g0).nodes) :
    p ∈ g0.nodes ∨ ∃ q ∈ l, p.2 = { kind := some q.2 } := by
  induction l generalizing g0 with
  | nil => exact Or.inl h
  | cons q l ih =>
    rw [List.foldl_cons] at h
    rcases ih h with h1 | h1
    · rcases mem_nodes_addNode h1 with h2 | h2
      · exact Or.inl h2
      · refine Or.inr ⟨q, List.mem_cons_self _ _, ?_⟩
        rw [h2]
    · obtain ⟨q1, hq1, hp⟩ := h1
      exact Or.inr ⟨q1, List.mem_cons_of_mem _ hq1, hp⟩

theorem mem_nodes_relStep {g : NxGraph} {amap : List (String × String)}
    {r : RelRecord} {p : String × NodeData}
    (h : p ∈ (relStep g amap r).1.nodes) : p ∈ g.nodes ∨ p.2 = ({} : NodeData) := by
  have hg1 : ∀ {q : String × NodeData},
      q ∈ (if r.category == "arrowHeadTail" then
        g.addEdge r.origin r.destination none else g).nodes →
      q ∈ g.nodes ∨ q.2 = ({} : NodeData) := by
    intro q hq
    split at hq
    · exact mem_nodes_addEdge hq
    · exact Or.inl hq
  unfold relStep at h
  rcases hc : r.connector with _ | hv
  · rw [hc] at h
    simp only at h
    rcases mem_nodes_addEdge h with h1 | h1
    · exact hg1 h1
    · exact Or.inr h1
  · rcases hv with _ | c
    · rw [hc] at h
      simp only at h
      exact hg1 h
    · rw [hc] at h
      simp only at h
      split at h
      · exact hg1 h
      · split at h <;>
        · rcases mem_nodes_addEdge h with h1 | h1
          · rcases mem_nodes_addEdge h1 with h2 | h2
            · exact hg1 h2
            · exact Or.inr h2
          · exact Or.inr h1

theorem mem_nodes_relFold {relations : List (String × RelRecord)}
    {s0 : NxGraph × List (String × String)} {p : String × NodeData}
    (h : p ∈ (relations.foldl (fun s q => relStep s.1 s.2 q.2) s0).1.nodes) :
    p ∈ s0.1.nodes ∨ p.2 = ({} : NodeData) := by
  induction relations generalizing s0 with
  | nil => exact Or.inl h
  | cons q l ih =>
    rw [List.foldl_cons] at h
    rcases ih h with h1 | h1
    · exact mem_nodes_relStep h1
    · exact Or.inr h1

theorem lookup_nodes_foldl {γ : Type} {l : List γ} {g : NxGraph} {i : String}
    (f : NxGraph → γ → NxGraph)
    (hf : ∀ (h : NxGraph) (x : γ), ∃ a b k, f h x = NxGraph.addEdge h a b k)
    (hsome : (List.lookup i g.nodes).isSome = true) :
    List.lookup i (l.foldl f g).nodes = List.lookup i g.nodes := by
  induction l generalizing g with
  | nil => rfl
  | cons x l ih =>
    rw [List.foldl_cons]
    obtain ⟨a, b, k, hx⟩ := hf g x
    rw [hx]
    have h1 := lookup_nodes_addEdge (g := g) a b k hsome
    have h2 : (List.lookup i (g.addEdge a b k).nodes).isSome = true := by
      rw [h1]
      exact hsome
    rw [ih h2, h1]

theorem stripGroupingEdges_of_kinds {g : NxGraph}
    (h : ∀ e ∈ g.edges, e.kind.isNone = false) :
    stripGroupingEdges g =
      { g with edges := g.edges.filter (fun e => !(e.kind == some "grouping")) } := by
  unfold stripGroupingEdges
  rw [if_neg]
  intro hany
  obtain ⟨e, he, hk⟩ := List.any_eq_true.mp hany
  rw [h e he] at hk
  cases hk

theorem mem_nodes_removeIsolates {g : NxGraph} {p : String × NodeData}
    (hp : p ∈ g.nodes) :
    (p ∈ (g.removeNodesFrom g.isolates).nodes ↔
      g.edges.any (fun e => e.incident p.1) = true) := by
  constructor
  · intro hmem
    unfold NxGraph.removeNodesFrom at hmem
    have h2 := (List.mem_filter.mp hmem).2
    simp only [Bool.not_eq_true'] at h2
    by_contra hfalse
    have hiso : p.1 ∈ g.isolates := by
      unfold NxGraph.isolates
      apply List.mem_filter.mpr
      refine ⟨List.mem_map_of_mem _ hp, ?_⟩
      simp only [Bool.not_eq_true']
      exact Bool.eq_false_iff.mpr hfalse
    have hcont : g.isolates.contains p.1 = true := List.elem_iff.mpr hiso
    rw [hcont] at h2
    cases h2
  · intro hact
    unfold NxGraph.removeNodesFrom
    apply List.mem_filter.mpr
    refine ⟨hp, ?_⟩
    simp only [Bool.not_eq_true']
    apply Bool.eq_false_iff.mpr
    intro hc
    have hmem := List.elem_iff.mp hc
    unfold NxGraph.isolates at hmem
    have hpred := (List.mem_filter.mp hmem).2
    simp only [Bool.not_eq_true'] at hpred
    rw [hact] at hpred
    cases hpred

theorem foldl_append_eq_flatMap {α β : Type} (l : List α) (f : α → List β)
    (acc : List β) :
    l.foldl (fun acc a => acc ++ f a) acc = acc ++ l.flatMap f := by
  induction l generalizing acc with
  | nil => simp
  | cons a l ih =>
    rw [List.foldl_cons, ih, List.flatMap_cons, List.append_assoc]

theorem imageConstPairs_eq_flatMap (g : NxGraph) (user_input : List String) :
    imageConstPairs g user_input =
      (kindPairs g).flatMap (fun p =>
        if p.2 == "imageConsts" then
          user_input.map (fun u => (pyUpper u, pyUpper p.1))
        else []) := by
  unfold imageConstPairs
  have hsame : (fun (acc : List (String × String)) (p : String × String) =>
      if p.2 == "imageConsts" then
        acc ++ user_input.map (fun u => (pyUpper u, pyUpper p.1))
      else acc) = (fun acc p =>
      acc ++ (if p.2 == "imageConsts" then
        user_input.map (fun u => (pyUpper u, pyUpper p.1)) else [])) := by
    funext acc p
    split
    · rfl
    · rw [List.append_nil]
  rw [hsame, foldl_append_eq_flatMap, List.nil_append]

theorem connLoop_found_of_invalid {tokens validElems : List String}
    {aliases : List (String × String)} {st : ConnState} (hst : st.found = false)
    (h : ∀ p ∈ aliases, tokens.contains p.1 = true →
      (((tokens.take (tokens.indexOf p.1)).map pyStripCommas ++
        (tokens.drop (tokens.indexOf p.1 + 1)).map pyStripCommas).all
          (fun t => validElems.contains t)) = false) :
    (connLoop tokens validElems aliases st).found = false := by
  induction aliases generalizing st with
  | nil => exact hst
  | cons p rest ih =>
    cases p with
    | mk al ct =>
      by_cases hb : st.broke = true
      · simpa [connLoop, hb] using hst
      · rw [Bool.not_eq_true] at hb
        by_cases hcont : tokens.contains al = true
        · have hinv := h (al, ct) (List.mem_cons_self _ _) hcont
          simp only [connLoop, hb, hcont, Bool.false_eq_true, if_false, if_true]
          rw [if_pos]
          · exact hst
          · rw [hinv]
            rfl
        · rw [Bool.not_eq_true] at hcont
          simp only [connLoop, hb, hcont, Bool.false_eq_true, if_false]
          exact ih hst (fun q hq => h q (List.mem_cons_of_mem _ hq))

/-! Claim theorems. -/

/-- Claim C1 (confirmed).  For every raw relation record processed by the
edge-drawing loop of `create_graph`, relative to the current graph and
arrow-to-arrowhead table:

1. if the record's category is `arrowHeadTail`, an edge joins its origin
   and destination in the resulting graph and the pair origin ->
   destination is recorded in the table;
2. if the record has a connector whose value is a key of the table, the
   connector phase adds exactly the two edges origin-connector and
   arrowhead-of-connector-destination (the resulting edge relation is the
   one of the post-arrowHeadTail graph extended by exactly those two
   unordered pairs);
3. if it has a connector not in the table, it adds exactly the two edges
   origin-connector and connector-destination;
4. if it has no connector field at all (the `KeyError` case), a single
   direct origin-destination edge is added.

Having a connector means a present, truthy value (`some (some c)` with
`c` nonempty), matching `if attributes['connector']:` in the source. -/
theorem claim_C1_relation_edge_rules (g : NxGraph)
    (amap : List (String × String)) (r : RelRecord) :
    (r.category = "arrowHeadTail" →
      (relStep g amap r).1.hasEdge r.origin r.destination = true ∧
      (relStep g amap r).2.lookup r.origin = some r.destination) ∧
    (∀ c, r.connector = some (some c) → ¬ c = "" →
      (∀ ah, (if r.category == "arrowHeadTail" then
          updateAssoc amap r.origin r.destination else amap).lookup c = some ah →
        ∀ x y, (relStep g amap r).1.hasEdge x y =
          ((if r.category == "arrowHeadTail" then
              g.addEdge r.origin r.destination none else g).hasEdge x y ||
            (pairMatches r.origin c x y || pairMatches ah r.destination x y))) ∧
      ((if r.category == "arrowHeadTail" then
          updateAssoc amap r.origin r.destination else amap).lookup c = none →
        ∀ x y, (relStep g amap r).1.hasEdge x y =
          ((if r.category == "arrowHeadTail" then
              g.addEdge r.origin r.destination none else g).hasEdge x y ||
            (pairMatches r.origin c x y || pairMatches c r.destination x y)))) ∧
    (r.connector = none →
      ∀ x y, (relStep g amap r).1.hasEdge x y =
        ((if r.category == "arrowHeadTail" then
            g.addEdge r.origin r.destination none else g).hasEdge x y ||
          pairMatches r.origin r.destination x y)) := by
  refine ⟨?_, ?_, ?_⟩
  · intro hcat
    have hb : (r.category == "arrowHeadTail") = true := beq_iff_eq.mpr hcat
    unfold relStep
    simp only [hb, if_true]
    rcases hc : r.connector with _ | hv
    · constructor
      · rw [hasEdge_addEdge, hasEdge_addEdge_self]
        rfl
      · exact lookup_updateAssoc_self amap r.origin r.destination
    · rcases hv with _ | c
      · exact ⟨hasEdge_addEdge_self g _ _ _,
          lookup_updateAssoc_self amap r.origin r.destination⟩
      · dsimp only
        by_cases hcc : (c == "") = true
        · rw [if_pos hcc]
          exact ⟨hasEdge_addEdge_self g _ _ _,
            lookup_updateAssoc_self amap r.origin r.destination⟩
        · rw [if_neg hcc]
          cases hl : List.lookup c (updateAssoc amap r.origin r.destination) with
          | some ah =>
            dsimp only
            constructor
            · rw [hasEdge_addEdge, hasEdge_addEdge,
                hasEdge_addEdge_self]
              rfl
            · exact lookup_updateAssoc_self amap r.origin r.destination
          | none =>
            dsimp only
            constructor
            · rw [hasEdge_addEdge, hasEdge_addEdge,
                hasEdge_addEdge_self]
              rfl
            · exact lookup_updateAssoc_self amap r.origin r.destination
  · intro c hc hne
    have hcc : (c == "") = false := beq_eq_false_iff_ne.mpr hne
    constructor
    · intro ah hah x y
      unfold relStep
      rw [hc]
      simp only [hcc, Bool.false_eq_true, if_false]
      rw [hah]
      rw [hasEdge_addEdge, hasEdge_addEdge, Bool.or_assoc]
    · intro hah x y
      unfold relStep
      rw [hc]
      simp only [hcc, Bool.false_eq_true, if_false]
      rw [hah]
      rw [hasEdge_addEdge, hasEdge_addEdge, Bool.or_assoc]
  · intro hc x y
    unfold relStep
    rw [hc]
    rw [hasEdge_addEdge]

/-- Witness for claim C1: with arrow-to-arrowhead table `A0 -> AH0`, a
record from `B0` to `B1` with connector `A0` yields exactly the edges
`B0`-`A0` and `AH0`-`B1`, and in particular no direct `B0`-`B1` edge. -/
theorem claim_C1_witness :
    (relStep gC1 amapC1 recC1).1.hasEdge "B0" "A0" = true ∧
    (relStep gC1 amapC1 recC1).1.hasEdge "AH0" "B1" = true ∧
    (relStep gC1 amapC1 recC1).1.hasEdge "B0" "B1" = false := by
  have h := (claim_C1_relation_edge_rules gC1 amapC1 recC1).2.1
  have h2 := (h "A0" rfl (by decide)).1 "AH0" (by decide)
  refine ⟨?_, ?_, ?_⟩
  · rw [h2 "B0" "A0"]
    decide
  · rw [h2 "AH0" "B1"]
    decide
  · rw [h2 "B0" "B1"]
    decide

/-- Counterexample to claim C2.  The claim asserts that, for every layer,
executing the `done` command removes every node with zero incident edges
and freezes the graph.  The inline `done` handler of
`Diagram.annotate_rst` (`utils/core/diagram.py`, lines 697-706) — one of
the two `done` implementations the repository contains, and the one cited
by the claim — only sets the completion flag: on a state whose RST graph
consists of the single isolated node `B0`, the node survives and the graph
is not frozen. -/
theorem claim_C2_counterexample :
    (annotate_rst_done stC2).rst_complete = true ∧
    (annotate_rst_done stC2).frozen = false ∧
    (annotate_rst_done stC2).graph.isolates = ["B0"] := by
  decide

/-- Claim C2 as amended: the `done` branch of the generic command
processor `process_command` behaves as the claim states, for every layer
and for every graph whose edges all carry a `kind` attribute: the layer's
completion flag is set, grouping-kind edges are stripped first exactly
when the layer is connectivity or RST (on the layout layer the edges are
untouched), every node with zero incident edges after the strip — and
nothing else — is removed, and the graph is frozen.  The inline `done`
handler of the RST annotation loop, by contrast, only sets `rst_complete`
(see the counterexample). -/
theorem claim_C2_amended (mode : String) (st : AnnState)
    (hkind : ∀ e ∈ st.graph.edges, e.kind.isNone = false) :
    (process_command_done mode st).frozen = true ∧
    (mode = "layout" → (process_command_done mode st).group_complete = true) ∧
    (mode = "connectivity" →
      (process_command_done mode st).connectivity_complete = true) ∧
    (mode = "rst" → (process_command_done mode st).rst_complete = true) ∧
    (process_command_done mode st).graph.isolates = [] ∧
    ((mode = "connectivity" ∨ mode = "rst") →
      (process_command_done mode st).graph.edges =
        st.graph.edges.filter (fun e => !(e.kind == some "grouping"))) ∧
    (mode = "layout" →
      (process_command_done mode st).graph.edges = st.graph.edges) ∧
    (∀ p ∈ (if (mode == "rst" || mode == "connectivity") = true
        then stripGroupingEdges st.graph else st.graph).nodes,
      (p ∈ (process_command_done mode st).graph.nodes ↔
        (if (mode == "rst" || mode == "connectivity") = true
          then stripGroupingEdges st.graph else st.graph).edges.any
            (fun e => e.incident p.1) = true)) := by
  have hgraph : (process_command_done mode st).graph =
      (if (mode == "rst" || mode == "connectivity") = true
        then stripGroupingEdges st.graph else st.graph).removeNodesFrom
      (if (mode == "rst" || mode == "connectivity") = true
        then stripGroupingEdges st.graph else st.graph).isolates := by
    unfold process_command_done
    split <;> rfl
  refine ⟨rfl, ?_, ?_, ?_, ?_, ?_, ?_, ?_⟩
  · intro hm
    unfold process_command_done
    simp [beq_iff_eq.mpr hm]
  · intro hm
    unfold process_command_done
    simp [beq_iff_eq.mpr hm]
  · intro hm
    unfold process_command_done
    simp [beq_iff_eq.mpr hm]
  · rw [hgraph]
    exact isolates_removeIsolates _
  · intro hm
    have hcond : (mode == "rst" || mode == "connectivity") = true := by
      rcases hm with hm | hm <;> simp [beq_iff_eq.mpr hm]
    rw [hgraph, if_pos hcond, edges_removeIsolates,
      stripGroupingEdges_of_kinds hkind]
  · intro hm
    have hcond : (mode == "rst" || mode == "connectivity") = false := by
      rw [hm]
      decide
    rw [hgraph, if_neg (by rw [hcond]; exact Bool.false_ne_true),
      edges_removeIsolates]
  · intro p hp
    rw [hgraph]
    exact mem_nodes_removeIsolates hp

/-- Witness for the amended claim C2: executing `done` through
`process_command` on the connectivity layer of a concrete state strips the
grouping edge, removes the group node it left isolated, keeps the
connection edge, sets the flag and freezes the graph. -/
theorem claim_C2_witness :
    (process_command_done "connectivity" stC2w).frozen = true ∧
    (process_command_done "connectivity" stC2w).connectivity_complete = true ∧
    (process_command_done "connectivity" stC2w).graph.isolates = [] ∧
    (process_command_done "connectivity" stC2w).graph.edges =
      stC2w.graph.edges.filter (fun e => !(e.kind == some "grouping")) := by
  have h := claim_C2_amended "connectivity" stC2w (by decide)
  exact ⟨h.1, h.2.2.1 rfl, h.2.2.2.2.1, h.2.2.2.2.2.1 (Or.inl rfl)⟩

/-- Counterexample to claim C3.  The claim asserts that validation treats
tokens case-insensitively, succeeding iff every token names an existing
node.  In the cited validation code the graph side is lower-cased but the
user's tokens are compared as typed: the token `B1` is rejected by the
layout grouping validation even though the node `B1` exists (while `b1` is
accepted), and the connectivity command `T1 > b1` is rejected — leaving
the graph unchanged — even though both `T1` and `B1` exist. -/
theorem claim_C3_counterexample :
    gC3.hasNode "B1" = true ∧
    layout_validate gC3 ["B1"] = false ∧
    layout_validate gC3 ["b1"] = true ∧
    gC3.hasNode "T1" = true ∧
    conn_step gC3 "T1 > b1" = gC3 := by
  decide

/-- Claim C3 as amended: validation is case-sensitive on the token side.
On the layout layer, validation succeeds iff every token, as typed, is a
member of the valid-element set (the lower-cased ids of the graph's nodes
plus the group aliases `g1`, `g2`, ...); when validation fails the
grouping command returns the graph unchanged.  On the connectivity layer,
whenever every connection alias present among the tokens has a source or
target token outside the lower-cased node ids, the command adds nothing
and the graph is returned unchanged — no partial edit is applied. -/
theorem claim_C3_amended :
    (∀ (g : NxGraph) (ts : List String),
      (layout_validate g ts = true ↔ ∀ t ∈ ts, t ∈ layoutValidElems g)) ∧
    (∀ (g : NxGraph) (inp newNode : String),
      layout_validate g (layoutTokens inp) = false →
      layout_group_cmd g inp newNode = some g) ∧
    (∀ (g : NxGraph) (inp : String),
      (∀ p ∈ connectionTypes, (connTokens inp).contains p.1 = true →
        connValid g (connCombined (connTokens inp) p.1) = false) →
      conn_step g inp = g) := by
  refine ⟨?_, ?_, ?_⟩
  · intro g ts
    unfold layout_validate
    rw [List.all_eq_true]
    constructor
    · intro h t ht
      exact List.elem_iff.mp (h t ht)
    · intro h t ht
      exact List.elem_iff.mpr (h t ht)
  · intro g inp newNode hval
    unfold layout_group_cmd
    rw [if_pos]
    rw [hval]
    rfl
  · intro g inp h
    have hfound : (connLoop (connTokens inp)
        (g.nodes.map (fun p => pyLower p.1)) connectionTypes {}).found = false := by
      apply connLoop_found_of_invalid rfl
      intro p hp hcont
      exact h p hp hcont
    unfold conn_step
    rw [if_neg]
    rw [hfound]
    exact Bool.false_ne_true

/-- Witness for the amended claim C3: lower-case tokens naming the nodes
of `gC3` validate; a grouping command containing the unknown token `xx`
and a connectivity command containing the unknown token `zz` both leave
the graph unchanged. -/
theorem claim_C3_witness :
    layout_validate gC3 ["b1", "t1"] = true ∧
    layout_group_cmd gC3 "b1, xx" "AB12XZ" = some gC3 ∧
    conn_step gC3 "t1 > zz" = gC3 := by
  refine ⟨?_, ?_, ?_⟩
  · exact (claim_C3_amended.1 gC3 ["b1", "t1"]).mpr (by decide)
  · exact claim_C3_amended.2.1 gC3 "b1, xx" "AB12XZ" (by decide)
  · exact claim_C3_amended.2.2 gC3 "t1 > zz" (by decide)

/-- Claim C4 concerns a code bug.  The claim (with the spec) says that a
missing element bucket is not an error: extraction returns the present
buckets' elements, an empty set for each absent kind, and every id of a
present bucket appears in the kind-mapping.  In the code, a missing bucket
aborts the list comprehension of `parse_annotation` before
`diagram_elements` is bound, so the function raises `UnboundLocalError`
(the `except KeyError: pass` around it documents the intent to tolerate
the absence); independently, `extract_types` catches the `KeyError` of a
missing bucket with `continue`, which aborts the whole per-element scan,
silently dropping elements of buckets it never reached.  On `annC4`
(every bucket present except `arrows`), parsing raises, the graph builder
propagates the error, and the kind-mapping for the present blob `B0` is
empty. -/
theorem claim_C4_failing_eval :
    parse_ann annC4 = Except.error PyErr.unboundLocal ∧
    create_graph annC4 false false = Except.error PyErr.unboundLocal ∧
    extract_types ["B0"] annC4 = [] ∧
    annC4.blobs = some ["B0"] :=
  ⟨rfl, rfl, rfl, rfl⟩

/-- Counterexample to claim C5.  The claim asserts that, when RST
annotation is disabled for the run, a diagram with `group_complete` and
`connectivity_complete` set is marked complete without `rst_complete`.
The batch driver's completion conditional reads only the three per-layer
flags and ignores the `disable_rst` switch: with RST disabled and the
first two flags set, the code leaves `complete` false while the claimed
condition holds. -/
theorem claim_C5_counterexample :
    (update_diagram_complete true
      { group_complete := true, connectivity_complete := true,
        rst_complete := false, complete := false }).complete = false ∧
    spec_complete_flag true
      { group_complete := true, connectivity_complete := true,
        rst_complete := false, complete := false } = true := by
  decide

/-- Claim C5 as amended: the batch driver marks a diagram complete exactly
when all three per-layer flags are set, regardless of whether RST
annotation is disabled for the run; the per-layer flags themselves are
not modified. -/
theorem claim_C5_amended (b : Bool) (d : DiagramFlags) :
    (update_diagram_complete b d).complete =
      (d.group_complete && d.connectivity_complete && d.rst_complete) ∧
    (update_diagram_complete b d).group_complete = d.group_complete ∧
    (update_diagram_complete b d).connectivity_complete =
      d.connectivity_complete ∧
    (update_diagram_complete b d).rst_complete = d.rst_complete := by
  unfold update_diagram_complete
  split
  · next h =>
    rw [h]
    exact ⟨rfl, rfl, rfl, rfl⟩
  · next h =>
    rw [Bool.eq_false_iff.mpr h]
    exact ⟨rfl, rfl, rfl, rfl⟩

/-- Counterexample to claim C6.  The claim asserts that a mononuclear
relation is created only with at least one satellite id and that input
violating the cardinality is rejected without mutating the graph.  The
mononuclear branch of `create_relation` never checks that the satellite
input is nonempty: an empty satellite line (`''.split()` is `[]`, a subset
of every set) creates the relation node `B0-` with `satellites = []`. -/
theorem claim_C6_counterexample :
    create_relation gC6 "mono" "elaboration" "b0" "" "" ≠ gC6 ∧
    List.lookup "B0-"
        (create_relation gC6 "mono" "elaboration" "b0" "" "").nodes =
      some { kind := some "relation", nucleus := some ["b0"],
             satellites := some [], rel_name := some "elaboration" } := by
  decide

/-- Claim C6 as amended: a mononuclear relation is created with exactly
one nucleus id and zero or more satellite ids (no minimum satellite count
is enforced); a multinuclear relation is created with at least two nuclei
ids and no satellites attribute; input with the wrong nucleus or nuclei
count, or containing an invalid identifier, is rejected with the graph
returned unchanged. -/
theorem claim_C6_amended (g : NxGraph) (nm nInp sInp nnInp : String) :
    ((lowTokens nInp).length ≠ 1 →
      create_relation g "mono" nm nInp sInp nnInp = g) ∧
    ((lowTokens nInp).all (fun t => (validRelationIds g).contains t) = false →
      create_relation g "mono" nm nInp sInp nnInp = g) ∧
    ((lowTokens sInp).all (fun t => (validRelationIds g).contains t) = false →
      create_relation g "mono" nm nInp sInp nnInp = g) ∧
    ((lowTokens nInp).length = 1 →
      (lowTokens nInp).all (fun t => (validRelationIds g).contains t) = true →
      (lowTokens sInp).all (fun t => (validRelationIds g).contains t) = true →
      List.lookup (pyUpper (pyJoinSep "" (lowTokens nInp)) ++ "-" ++
          pyUpper (pyJoinSep "+" (lowTokens sInp)))
        (create_relation g "mono" nm nInp sInp nnInp).nodes =
        some { kind := some "relation", nucleus := some (lowTokens nInp),
               satellites := some (lowTokens sInp), rel_name := some nm }) ∧
    ((lowTokens nnInp).length ≤ 1 →
      create_relation g "multi" nm nInp sInp nnInp = g) ∧
    ((lowTokens nnInp).all (fun t => (validRelationIds g).contains t) = false →
      create_relation g "multi" nm nInp sInp nnInp = g) ∧
    (1 < (lowTokens nnInp).length →
      (lowTokens nnInp).all (fun t => (validRelationIds g).contains t) = true →
      List.lookup (pyUpper (pyJoinSep "+" (lowTokens nnInp)))
        (create_relation g "multi" nm nInp sInp nnInp).nodes =
        some { kind := some "relation", nuclei := some (lowTokens nnInp),
               rel_name := some nm }) := by
  have hmono : create_relation g "mono" nm nInp sInp nnInp =
      create_relation_mono g nm nInp sInp := by
    unfold create_relation
    rw [if_pos (by decide)]
  have hmulti : create_relation g "multi" nm nInp sInp nnInp =
      create_relation_multi g nm nnInp := by
    unfold create_relation
    rw [if_neg (by decide), if_pos (by decide)]
  refine ⟨?_, ?_, ?_, ?_, ?_, ?_, ?_⟩
  · intro hlen
    rw [hmono]
    unfold create_relation_mono
    have hb : ((lowTokens nInp).length == 1) = false := beq_eq_false_iff_ne.mpr hlen
    simp only [hb, Bool.not_false, if_true]
  · intro hvn
    rw [hmono]
    unfold create_relation_mono
    by_cases hlen : ((lowTokens nInp).length == 1) = true
    · simp only [hlen, Bool.not_true, Bool.false_eq_true, if_false, hvn,
        Bool.not_false, if_true]
    · simp only [Bool.eq_false_iff.mpr hlen, Bool.not_false, if_true]
  · intro hvs
    rw [hmono]
    unfold create_relation_mono
    by_cases hlen : ((lowTokens nInp).length == 1) = true
    · by_cases hvn : (lowTokens nInp).all
          (fun t => (validRelationIds g).contains t) = true
      · simp only [hlen, Bool.not_true, Bool.false_eq_true, if_false, hvn,
          hvs, Bool.not_false, if_true]
      · simp only [hlen, Bool.not_true, Bool.false_eq_true, if_false,
          Bool.eq_false_iff.mpr hvn, Bool.not_false, if_true]
    · simp only [Bool.eq_false_iff.mpr hlen, Bool.not_false, if_true]
  · intro hlen hvn hvs
    rw [hmono]
    unfold create_relation_mono
    have hb : ((lowTokens nInp).length == 1) = true := by
      rw [hlen]
      rfl
    simp only [hb, hvn, hvs, Bool.not_true, Bool.false_eq_true, if_false]
    have hbase := lookup_addNode_self g
      (pyUpper (pyJoinSep "" (lowTokens nInp)) ++ "-" ++
        pyUpper (pyJoinSep "+" (lowTokens sInp)))
      { kind := some "relation", nucleus := some (lowTokens nInp),
        satellites := some (lowTokens sInp), rel_name := some nm }
    have hsome1 : (List.lookup (pyUpper (pyJoinSep "" (lowTokens nInp)) ++ "-" ++
        pyUpper (pyJoinSep "+" (lowTokens sInp)))
        (NxGraph.addNode g (pyUpper (pyJoinSep "" (lowTokens nInp)) ++ "-" ++
          pyUpper (pyJoinSep "+" (lowTokens sInp)))
          { kind := some "relation", nucleus := some (lowTokens nInp),
            satellites := some (lowTokens sInp),
            rel_name := some nm }).nodes).isSome = true := by
      rw [hbase]
      rfl
    rw [lookup_nodes_foldl _ ?_ ?_, lookup_nodes_foldl _ ?_ hsome1, hbase]
    · intro h x
      cases hx : (relationAliases g).lookup x with
      | some rid => exact ⟨_, _, _, rfl⟩
      | none => exact ⟨_, _, _, rfl⟩
    · intro h x
      exact ⟨_, _, _, rfl⟩
    · rw [lookup_nodes_foldl _ ?_ hsome1]
      · rw [hbase]
        rfl
      · intro h x
        cases hx : (relationAliases g).lookup x with
        | some rid => exact ⟨_, _, _, rfl⟩
        | none => exact ⟨_, _, _, rfl⟩
  · intro hlen
    rw [hmulti]
    unfold create_relation_multi
    rw [if_pos hlen]
  · intro hvn
    rw [hmulti]
    unfold create_relation_multi
    by_cases hlen : (lowTokens nnInp).length ≤ 1
    · rw [if_pos hlen]
    · rw [if_neg hlen]
      simp only [hvn, Bool.not_false, if_true]
  · intro hlen hvn
    rw [hmulti]
    unfold create_relation_multi
    rw [if_neg (Nat.not_le_of_lt hlen)]
    simp only [hvn, Bool.not_true, Bool.false_eq_true, if_false]
    have hbase := lookup_addNode_self g (pyUpper (pyJoinSep "+" (lowTokens nnInp)))
      { kind := some "relation", nuclei := some (lowTokens nnInp),
        rel_name := some nm }
    have hsome1 : (List.lookup (pyUpper (pyJoinSep "+" (lowTokens nnInp)))
        (NxGraph.addNode g (pyUpper (pyJoinSep "+" (lowTokens nnInp)))
          { kind := some "relation", nuclei := some (lowTokens nnInp),
            rel_name := some nm }).nodes).isSome = true := by
      rw [hbase]
      rfl
    rw [lookup_nodes_foldl _ ?_ hsome1, hbase]
    intro h x
    cases hx : (relationAliases g).lookup x with
    | some rid => exact ⟨_, _, _, rfl⟩
    | none => exact ⟨_, _, _, rfl⟩

/-- Witness for the amended claim C6: a mononuclear `elaboration` with
nucleus `b0` and satellite `t0` on a two-element graph creates the
relation node `B0-T0` carrying exactly those participants. -/
theorem claim_C6_witness :
    List.lookup "B0-T0"
        (create_relation gC6w "mono" "elaboration" "b0" "t0" "").nodes =
      some { kind := some "relation", nucleus := some ["b0"],
             satellites := some ["t0"], rel_name := some "elaboration" } := by
  have h := (claim_C6_amended gC6w "elaboration" "b0" "t0" "").2.2.2.1
    (by decide) (by decide) (by decide)
  have e1 : pyUpper (pyJoinSep "" (lowTokens "b0")) ++ "-" ++
      pyUpper (pyJoinSep "+" (lowTokens "t0")) = "B0-T0" := by decide
  have e2 : lowTokens "b0" = ["b0"] := by decide
  have e3 : lowTokens "t0" = ["t0"] := by decide
  rw [e1, e2, e3] at h
  exact h

/-- Claim C7 concerns a code bug.  The claim (with the spec) says every
participant given as a relation alias (`r1`, `r2`, ...) is resolved to its
stable relation id before the relation node and its edges are added, so
the stored relation refers only to stable identifiers.  The mononuclear
branch of `create_relation` resolves aliases only when drawing satellite
edges: the nucleus edge is drawn to the upper-cased alias itself, the
generated relation id embeds the alias, and the `nucleus` / `satellites`
attributes store the raw alias tokens.  On `gC7` (which holds the relation
`B0-T0`, alias `r1`), creating `elaboration` with nucleus `r1` and
satellite `t0` adds the phantom attribute-free node `R1`, draws the
nucleus edge to it instead of to `B0-T0`, and stores `nucleus = ['r1']`
under the id `R1-T0`.  The repository ships `repair_annotation.py`
precisely to rewrite such alias references after the fact, confirming the
claim describes the intent and the code the slip. -/
theorem claim_C7_failing_eval :
    (create_relation gC7 "mono" "elaboration" "r1" "t0" "").hasNode "R1" = true ∧
    List.lookup "R1"
        (create_relation gC7 "mono" "elaboration" "r1" "t0" "").nodes =
      some ({} : NodeData) ∧
    (create_relation gC7 "mono" "elaboration" "r1" "t0" "").hasEdge
      "R1-T0" "R1" = true ∧
    (create_relation gC7 "mono" "elaboration" "r1" "t0" "").hasEdge
      "R1-T0" "B0-T0" = false ∧
    List.lookup "R1-T0"
        (create_relation gC7 "mono" "elaboration" "r1" "t0" "").nodes =
      some { kind := some "relation", nucleus := some ["r1"],
             satellites := some ["t0"], rel_name := some "elaboration" } := by
  decide

/-- Claim C8 (confirmed).  Whenever the graph builder runs with arrowheads
excluded and succeeds, no node of the resulting graph carries the
arrowhead kind: the element nodes are created from the kind-mapping with
arrowhead entries filtered out, and any node introduced by the
edge-drawing phase (including arrowhead ids named by arrowHeadTail
records) is created by `add_edge` with an empty attribute dictionary. -/
theorem claim_C8_no_arrowhead_nodes (a : AnnData) (ed : Bool) (g : NxGraph)
    (h : create_graph a ed false = Except.ok g) :
    ∀ p ∈ g.nodes, ¬ p.2.kind = some "arrowHeads" := by
  intro p hp
  unfold create_graph at h
  cases hpa : parse_ann a with
  | error e =>
    rw [hpa] at h
    cases h
  | ok pr =>
    rw [hpa] at h
    have hbase : ∀ {q : String × NodeData},
        q ∈ (((extract_types pr.1 a).filter (fun r => !(r.2 == "arrowHeads"))).foldl
          (fun acc r => acc.addNode r.1 { kind := some r.2 })
          (⟨[], []⟩ : NxGraph)).nodes →
        ¬ q.2.kind = some "arrowHeads" := by
      intro q hq
      rcases mem_nodes_foldl_addNode hq with h1 | h1
      · cases h1
      · obtain ⟨r, hr, hq2⟩ := h1
        have hkind := (List.mem_filter.mp hr).2
        simp only [Bool.not_eq_true', beq_eq_false_iff_ne] at hkind
        rw [hq2]
        intro hc
        exact hkind (Option.some.inj hc)
    cases ed with
    | false =>
      simp only [Bool.false_eq_true, if_false] at h
      cases h
      exact hbase hp
    | true =>
      simp only [if_true] at h
      cases h
      rcases mem_nodes_relFold hp with h1 | h1
      · exact hbase h1
      · rw [h1]
        intro hc
        cases hc

/-- Witness for claim C8: the graph builder on `annC8` with edges drawn
and arrowheads excluded succeeds with `gC8res`, in which the arrowhead id
`AH0` appears only as an attribute-free node. -/
theorem claim_C8_witness :
    (gC8res.nodes.all (fun p => !(p.2.kind == some "arrowHeads"))) = true := by
  have h := claim_C8_no_arrowhead_nodes annC8 true gC8res (by rfl)
  apply List.all_eq_true.mpr
  intro p hp
  simp only [Bool.not_eq_true', beq_eq_false_iff_ne]
  exact h p hp

/-- Counterexample to claim C9.  The claim asserts that `t1 <> b1, b2`
adds four edges.  The connectivity graph is an undirected
`networkx.Graph`, so although four ordered pairs are submitted, the two
reversed pairs coincide with the two forward pairs: exactly two edges
result, `T1`-`B1` and `T1`-`B2`, each of kind `bidirectional`. -/
theorem claim_C9_counterexample :
    (conn_step gC9 "t1 <> b1, b2").edges.length = 2 ∧
    ¬ ((conn_step gC9 "t1 <> b1, b2").edges.length = gC9.edges.length + 4) ∧
    (conn_step gC9 "t1 <> b1, b2").hasEdgeKind "T1" "B1"
      (some "bidirectional") = true ∧
    (conn_step gC9 "t1 <> b1, b2").hasEdgeKind "B1" "T1"
      (some "bidirectional") = true ∧
    (conn_step gC9 "t1 <> b1, b2").hasEdgeKind "T1" "B2"
      (some "bidirectional") = true ∧
    (conn_step gC9 "t1 <> b1, b2").hasEdgeKind "B2" "T1"
      (some "bidirectional") = true := by
  decide

/-- Claim C9 as amended: for the `<>` connector the edge bunch holds one
ordered pair per (source, target) combination plus the reversed pairs, but
on the undirected connectivity graph the reversed additions coincide with
the forward ones: after the bunch is added, every (source, target) pair is
joined by an edge of kind `bidirectional` (in both reading directions,
since edges are unordered), and every edge of the result is an edge of the
original graph or joins some upper-cased (source, target) pair with kind
`bidirectional`. -/
theorem claim_C9_amended (g : NxGraph) (source target : List String) :
    (∀ s ∈ source, ∀ t ∈ target,
      (g.addEdgesFrom (connEdgeBunch source target "bidirectional")
        (some "bidirectional")).hasEdgeKind (pyUpper s) (pyUpper t)
        (some "bidirectional") = true) ∧
    (∀ e ∈ (g.addEdgesFrom (connEdgeBunch source target "bidirectional")
        (some "bidirectional")).edges,
      e ∈ g.edges ∨ (e.kind = some "bidirectional" ∧
        source.any (fun s => target.any (fun t =>
          pairMatches (pyUpper s) (pyUpper t) e.src e.dst)) = true)) := by
  constructor
  · intro s hs t ht
    rw [hasEdgeKind_addEdgesFrom_same]
    have hmem : ((pyUpper s, pyUpper t) : String × String) ∈
        connEdgeBunch source target "bidirectional" := by
      unfold connEdgeBunch
      apply List.mem_append.mpr
      left
      apply List.mem_flatMap.mpr
      exact ⟨s, hs, List.mem_map.mpr ⟨t, ht, rfl⟩⟩
    have hany : (connEdgeBunch source target "bidirectional").any
        (fun p => pairMatches p.1 p.2 (pyUpper s) (pyUpper t)) = true := by
      apply List.any_eq_true.mpr
      refine ⟨(pyUpper s, pyUpper t), hmem, ?_⟩
      unfold pairMatches
      simp
    rw [hany, Bool.or_true]
  · intro e he
    rcases mem_edges_addEdgesFrom_some he with h1 | h1
    · exact Or.inl h1
    · refine Or.inr ⟨h1.1, ?_⟩
      obtain ⟨p, hp, hpm⟩ := List.any_eq_true.mp h1.2
      unfold connEdgeBunch at hp
      rcases List.mem_append.mp hp with h2 | h2
      · obtain ⟨s, hs, hmap⟩ := List.mem_flatMap.mp h2
        obtain ⟨t, ht, hpt⟩ := List.mem_map.mp hmap
        apply List.any_eq_true.mpr
        refine ⟨s, hs, List.any_eq_true.mpr ⟨t, ht, ?_⟩⟩
        rw [← hpt] at hpm
        exact hpm
      · simp only [beq_self_eq_true, if_true] at h2
        obtain ⟨t, ht, hmap⟩ := List.mem_flatMap.mp h2
        obtain ⟨s, hs, hpt⟩ := List.mem_map.mp hmap
        apply List.any_eq_true.mpr
        refine ⟨s, hs, List.any_eq_true.mpr ⟨t, ht, ?_⟩⟩
        rw [← hpt] at hpm
        rw [pairMatches_comm] at hpm
        exact hpm

/-- Witness for the amended claim C9: on the concrete graph of the
scenario, each of the two (source, target) pairs is joined by a
`bidirectional` edge after the bunch for `t1 <> b1, b2` is added. -/
theorem claim_C9_witness :
    (gC9.addEdgesFrom (connEdgeBunch ["t1"] ["b1", "b2"] "bidirectional")
      (some "bidirectional")).hasEdgeKind "T1" "B2"
      (some "bidirectional") = true := by
  have h := (claim_C9_amended gC9 ["t1"] ["b1", "b2"]).1 "t1" (by decide)
    "b2" (by decide)
  have e1 : pyUpper "t1" = "T1" := by decide
  have e2 : pyUpper "b2" = "B2" := by decide
  rw [e1, e2] at h
  exact h

/-- Claim C10 (confirmed).  When `group_nodes` succeeds and the listed
nodes include an image constant, no new group node is created: the set of
group-kind node ids is unchanged, and an edge is added from every listed
node to every image-constant node of the graph.  Only when no image
constant is among the listed nodes' kinds is the fresh group node added,
with an edge from every listed node to it. -/
theorem claim_C10_group_nodes (g : NxGraph) (user_input : List String)
    (newNode : String) (r : NxGraph)
    (h : group_nodes g user_input newNode = some r) :
    ((inputKindList g user_input).contains "imageConsts" = true →
      groupNodeIds r = groupNodeIds g ∧
      (∀ u ∈ user_input, ∀ q ∈ kindPairs g, q.2 = "imageConsts" →
        r.hasEdge (pyUpper u) (pyUpper q.1) = true)) ∧
    ((inputKindList g user_input).contains "imageConsts" = false →
      List.lookup newNode r.nodes = some { kind := some "group" } ∧
      (∀ u ∈ user_input, r.hasEdge (pyUpper u) newNode = true)) := by
  unfold group_nodes at h
  split at h
  · exact Option.noConfusion h
  · split at h
    · next hcond =>
      have hr : r = g.addEdgesFrom (imageConstPairs g user_input) none :=
        (Option.some.inj h).symm
      constructor
      · intro _
        subst hr
        constructor
        · unfold groupNodeIds
          rw [kindPairs_addEdgesFrom]
        · intro u hu q hq hq2
          rw [hasEdge_addEdgesFrom]
          have hmem : ((pyUpper u, pyUpper q.1) : String × String) ∈
              imageConstPairs g user_input := by
            rw [imageConstPairs_eq_flatMap]
            apply List.mem_flatMap.mpr
            refine ⟨q, hq, ?_⟩
            rw [if_pos (beq_iff_eq.mpr hq2)]
            exact List.mem_map.mpr ⟨u, hu, rfl⟩
          have hany : (imageConstPairs g user_input).any
              (fun p => pairMatches p.1 p.2 (pyUpper u) (pyUpper q.1)) = true := by
            apply List.any_eq_true.mpr
            refine ⟨_, hmem, ?_⟩
            unfold pairMatches
            simp
          rw [hany, Bool.or_true]
      · intro hcond2
        rw [hcond] at hcond2
        cases hcond2
    · next hcond =>
      have hr : r = (g.addNode newNode { kind := some "group" }).addEdgesFrom
          (user_input.map (fun u => (pyUpper u, newNode))) none :=
        (Option.some.inj h).symm
      constructor
      · intro hcond2
        rw [hcond2] at hcond
        exact absurd rfl hcond
      · intro _
        subst hr
        constructor
        · rw [lookup_nodes_addEdgesFrom _ _ ?hsome, lookup_addNode_self]
          case hsome =>
            rw [lookup_addNode_self]
            rfl
        · intro u hu
          rw [hasEdge_addEdgesFrom]
          have hany : (user_input.map (fun v => (pyUpper v, newNode))).any
              (fun p => pairMatches p.1 p.2 (pyUpper u) newNode) = true := by
            apply List.any_eq_true.mpr
            refine ⟨(pyUpper u, newNode), List.mem_map.mpr ⟨u, hu, rfl⟩, ?_⟩
            unfold pairMatches
            simp
          rw [hany, Bool.or_true]

/-- Witness for claim C10: grouping `b0` with the image constant `i0` on
`gC10` creates no group node and draws an edge from `B0` to `I0`. -/
theorem claim_C10_witness :
    groupNodeIds gC10res = groupNodeIds gC10 ∧
    gC10res.hasEdge "B0" "I0" = true := by
  have h := (claim_C10_group_nodes gC10 ["b0", "i0"] "ZZZZ" gC10res
    (by rfl)).1 (by decide)
  refine ⟨h.1, ?_⟩
  have h2 := h.2 "b0" (by decide) ("I0", "imageConsts") (by decide) rfl
  have e1 : pyUpper "b0" = "B0" := by decide
  have e2 : pyUpper "I0" = "I0" := by decide
  rw [e1, e2] at h2
  exact h2
